import Mathlib

/-!
# Verification of the sf-cli-migrator batch transfer engine

Shallow embedding of the core pipeline of `src/lib/migration.ts`
(`runMigration`, `queryAllChunked`), the checkpoint state store
`src/lib/state.ts` (`generateStateId`, `saveState`, `loadState`) and the
scratch-directory helpers of `src/lib/temp.ts`, together with theorems
checking the natural-language specification against that embedding.

Remote stores, the local filesystem and the cancellation flag are modelled
as explicit environments/state; all definitions are executable.
-/

namespace Migrator

/-- `BATCH_SIZE = 200` from migration.ts. -/
def BATCH_SIZE : Nat := 200

/-- `MAX_FILE_SIZE = 10 * 1024 * 1024` (10 MB REST API limit) from migration.ts. -/
def MAX_FILE_SIZE : Nat := 10 * 1024 * 1024

/-! ## Chunked query helper (`queryAllChunked`, migration.ts lines 524-537)

The source iterates `i` from `0` by `chunkSize` over the id list, takes the
slice `ids.slice(i, i + chunkSize)`, runs one sub-query built from that chunk
and concatenates all result rows.  `chunksOf` is that slicing loop. -/

/-- Fuel-driven recursion computing the successive slices
`ids.slice(i, i+n)`; `fuel ≥ ids.length` makes it total (each step drops at
least one element when `n ≠ 0`). -/
def chunksOfAux (n : Nat) : Nat → List α → List (List α)
  | 0, _ => []
  | _ + 1, [] => []
  | fuel + 1, x :: xs =>
    if n = 0 then []
    else (x :: xs).take n :: chunksOfAux n fuel ((x :: xs).drop n)

/-- The successive chunks `ids.slice(i, i+n)` taken by the `queryAllChunked`
loop, in order. -/
def chunksOf (n : Nat) (ids : List α) : List (List α) :=
  chunksOfAux n ids.length ids

/-- `queryAllChunked` with the execution of one sub-query abstracted as
`run : chunk → rows`: the concatenation of every chunk's result rows.
In the source, `run chunk = queryAll conn (soqlBuilder chunk)`. -/
def queryAllChunked (run : List String → List ρ) (ids : List String)
    (chunkSize : Nat := BATCH_SIZE) : List ρ :=
  ((chunksOf chunkSize ids).map run).flatten

/-- The number of sub-queries `queryAllChunked` issues: one per chunk. -/
def numSubQueries (ids : List String) (chunkSize : Nat := BATCH_SIZE) : Nat :=
  (chunksOf chunkSize ids).length

theorem chunksOfAux_congr (n : Nat) :
    ∀ (f1 f2 : Nat) (ids : List α), ids.length ≤ f1 → ids.length ≤ f2 →
      chunksOfAux n f1 ids = chunksOfAux n f2 ids := by
  intro f1
  induction f1 with
  | zero =>
    intro f2 ids h1 _
    have : ids = [] := List.length_eq_zero.mp (Nat.le_zero.mp h1)
    subst this
    cases f2 <;> rfl
  | succ f1 ih =>
    intro f2 ids h1 h2
    match ids with
    | [] => cases f2 <;> rfl
    | x :: xs =>
      match f2 with
      | 0 => simp at h2
      | f2 + 1 =>
        by_cases hn : n = 0
        · subst hn; rfl
        · rw [chunksOfAux, if_neg hn, chunksOfAux, if_neg hn]
          congr 1
          apply ih
          all_goals
            simp only [List.length_drop, List.length_cons]
            simp only [List.length_cons] at h1 h2
            have := Nat.pos_of_ne_zero hn
            omega

theorem chunksOfAux_fuel (n : Nat) (fuel : Nat) (ids : List α)
    (hlen : ids.length ≤ fuel) : chunksOfAux n fuel ids = chunksOf n ids :=
  chunksOfAux_congr n fuel ids.length ids hlen le_rfl

theorem chunksOf_nil (n : Nat) : chunksOf n ([] : List α) = [] := rfl

theorem chunksOf_cons_of_ne (n : Nat) (x : α) (xs : List α) (hn : n ≠ 0) :
    chunksOf n (x :: xs) = (x :: xs).take n :: chunksOf n ((x :: xs).drop n) := by
  show chunksOfAux n (x :: xs).length (x :: xs) = _
  rw [show (x :: xs).length = xs.length + 1 from rfl, chunksOfAux, if_neg hn]
  congr 1
  apply chunksOfAux_fuel
  simp only [List.length_drop, List.length_cons]
  have := Nat.pos_of_ne_zero hn
  omega

theorem chunksOf_of_zero (ids : List α) : chunksOf 0 ids = [] := by
  cases ids with
  | nil => rfl
  | cons x xs =>
    show chunksOfAux 0 (xs.length + 1) (x :: xs) = []
    rw [chunksOfAux]
    simp

/-- Every chunk produced by the slicing loop has length at most `n`. -/
theorem chunksOf_length_le (n : Nat) (ids : List α) :
    ∀ c ∈ chunksOf n ids, c.length ≤ n := by
  suffices h : ∀ (fuel : Nat) (l : List α), ∀ c ∈ chunksOfAux n fuel l, c.length ≤ n by
    exact h ids.length ids
  intro fuel
  induction fuel with
  | zero => intro l c hc; simp [chunksOfAux] at hc
  | succ fuel ih =>
    intro l c hc
    match l with
    | [] => simp [chunksOfAux] at hc
    | x :: xs =>
      rw [chunksOfAux] at hc
      by_cases hn : n = 0
      · simp [hn] at hc
      · rw [if_neg hn] at hc
        rcases List.mem_cons.mp hc with h' | h'
        · subst h'; exact (List.length_take _ _).le.trans (Nat.min_le_left _ _)
        · exact ih _ c h'

/-- No value is lost or duplicated across chunk boundaries: concatenating
the chunks recovers the input list exactly. -/
theorem chunksOf_flatten (n : Nat) (ids : List α) (hn : n ≠ 0) :
    (chunksOf n ids).flatten = ids := by
  suffices h : ∀ (fuel : Nat) (l : List α), l.length ≤ fuel →
      (chunksOfAux n fuel l).flatten = l by
    exact h ids.length ids le_rfl
  intro fuel
  induction fuel with
  | zero =>
    intro l hl
    have : l = [] := List.length_eq_zero.mp (Nat.le_zero.mp hl)
    subst this
    rfl
  | succ fuel ih =>
    intro l hl
    match l with
    | [] => rfl
    | x :: xs =>
      rw [chunksOfAux, if_neg hn]
      simp only [List.flatten_cons]
      rw [ih _ (by
        simp only [List.length_drop, List.length_cons]
        simp only [List.length_cons] at hl
        have := Nat.pos_of_ne_zero hn
        omega)]
      exact List.take_append_drop _ _

theorem ceilDiv_step (m n : Nat) (hm : 1 ≤ m) (hn : 0 < n) :
    (m - n + n - 1) / n + 1 = (m + n - 1) / n := by
  have key : (m - n + n - 1) / n = (m - 1) / n := by
    rcases le_or_lt n m with h | h
    · congr 1; omega
    · rw [Nat.div_eq_of_lt (by omega), Nat.div_eq_of_lt (by omega)]
  rw [key]
  have e2 : m + n - 1 = (m - 1) + n := by omega
  rw [e2, Nat.add_div_right _ hn]

/-- The number of chunks is exactly `⌈ids.length / n⌉`. -/
theorem chunksOf_count (n : Nat) (ids : List α) (hn : n ≠ 0) :
    (chunksOf n ids).length = (ids.length + n - 1) / n := by
  have hn0 : 0 < n := Nat.pos_of_ne_zero hn
  suffices h : ∀ (fuel : Nat) (l : List α), l.length ≤ fuel →
      (chunksOfAux n fuel l).length = (l.length + n - 1) / n by
    exact h ids.length ids le_rfl
  intro fuel
  induction fuel with
  | zero =>
    intro l hl
    have : l = [] := List.length_eq_zero.mp (Nat.le_zero.mp hl)
    subst this
    exact (Nat.div_eq_of_lt (by omega)).symm
  | succ fuel ih =>
    intro l hl
    match l with
    | [] =>
      rw [chunksOfAux]
      simp only [List.length_nil]
      exact (Nat.div_eq_of_lt (by omega)).symm
    | x :: xs =>
      rw [chunksOfAux, if_neg hn]
      simp only [List.length_cons]
      rw [ih _ (by
        simp only [List.length_drop, List.length_cons]
        simp only [List.length_cons] at hl
        omega)]
      simp only [List.length_drop, List.length_cons]
      exact ceilDiv_step (xs.length + 1) n (by omega) hn0

/-! ## Data model (migration.ts lines 21-67, state.ts lines 42-77)

Dynamic JS records are modelled as typed projections; a possibly absent or
null field is an `Option String`.  JS string truthiness (`undefined`, `null`
and `""` are falsy) is `truthy`. -/

/-- Truthiness of an optional JS string value: absent, null and `""` are falsy. -/
def truthy : Option String → Bool
  | none => false
  | some s => !s.isEmpty

/-- One row of the step-1 source query: `Id` plus the configured source match
field (absent when the record has no value there). -/
structure SourceRecord where
  Id : String
  matchVal : Option String
deriving Repr, DecidableEq

/-- One row of the step-4 target query: `Id` plus the target match field value
(the SOQL `IN` filter only returns rows whose field equals one of the queried
values, so the value is a string). -/
structure TargetRecord where
  Id : String
  matchVal : String
deriving Repr, DecidableEq

/-- One `ContentDocumentLink` row: `{ContentDocumentId, LinkedEntityId}`. -/
structure LinkRow where
  ContentDocumentId : String
  LinkedEntityId : String
deriving Repr, DecidableEq

/-- `ContentVersionRecord` from migration.ts lines 54-63. -/
structure ContentVersionRecord where
  Id : String
  ContentDocumentId : String
  Title : String
  PathOnClient : String
  FileExtension : String
  ContentSize : Nat
  Description : Option String
  VersionNumber : String
deriving Repr, DecidableEq

/-- A `ContentDocumentLink` record queued for insertion (migration.ts
lines 404-409, 419-424). -/
structure LinkToCreate where
  ContentDocumentId : String
  LinkedEntityId : String
  ShareType : String
  Visibility : String
deriving Repr, DecidableEq

/-- `{file?, stage, error}` entries of `MigrationResults.errors`. -/
structure MigrationError where
  file : Option String
  stage : String
  error : String
deriving Repr, DecidableEq

/-- `MigrationResults` from migration.ts lines 45-52. -/
structure MigrationResults where
  filesFound : Nat
  filesUploaded : Nat
  filesFailed : Nat
  filesSkipped : Nat
  linksCreated : Nat
  errors : List MigrationError
deriving Repr, DecidableEq

/-- The all-zero `results` initialised at the top of `runMigration`. -/
def initialResults : MigrationResults :=
  { filesFound := 0, filesUploaded := 0, filesFailed := 0, filesSkipped := 0
    linksCreated := 0, errors := [] }

/-! ## JS `Map` / plain-object maps

`Map.set` / `obj[k] = v` update the value in place when the key exists and
append a new entry otherwise; iteration follows insertion order of keys.
An association list with upsert reproduces both lookup and order. -/

/-- JS `Map.set m k v` / `m[k] = v`: update the value in place when the key
already exists (a JS map holds each key once, so replacing the first
occurrence is exact), append a new entry otherwise. -/
def mapSet {β : Type} (m : List (String × β)) (k : String) (v : β) : List (String × β) :=
  match m with
  | [] => [(k, v)]
  | p :: rest => if p.1 = k then (k, v) :: rest else p :: mapSet rest k v

/-- JS `Map.get m k` / `m[k]` (as `Option`). -/
def mapGet {β : Type} (m : List (String × β)) (k : String) : Option β :=
  (m.find? (fun p => p.1 = k)).map Prod.snd

/-- JS `Map.has m k` / `k in m`. -/
def mapHas {β : Type} (m : List (String × β)) (k : String) : Bool :=
  m.any (fun p => p.1 = k)

/-- Merge the entries of `delta` into `m` in order (JS
`Object.assign(m, delta)` / repeated `Map.set`). -/
def mapMerge {β : Type} (m delta : List (String × β)) : List (String × β) :=
  delta.foldl (fun acc p => mapSet acc p.1 p.2) m

/-- `[...new Set(xs)]`: deduplicate keeping the first occurrence of each
element, in encounter order. -/
def jsSetDedup (xs : List String) : List String :=
  xs.foldl (fun acc x => if acc.contains x then acc else acc ++ [x]) []

/-! ## Size partition (migration.ts lines 168-178)

`oversized = contentVersions.filter(cv => cv.ContentSize > MAX_FILE_SIZE)`,
`migrateableVersions = contentVersions.filter(cv => cv.ContentSize <= MAX_FILE_SIZE)`,
and `results.filesSkipped += oversized.length`. -/

/-- The oversized entries skipped by `runMigration`. -/
def oversizedOf (contentVersions : List ContentVersionRecord) : List ContentVersionRecord :=
  contentVersions.filter (fun cv => MAX_FILE_SIZE < cv.ContentSize)

/-- The migrateable entries retained for transfer. -/
def migrateableOf (contentVersions : List ContentVersionRecord) : List ContentVersionRecord :=
  contentVersions.filter (fun cv => cv.ContentSize ≤ MAX_FILE_SIZE)

/-- `filesSkipped` after the partition (the `+=` is guarded by
`oversized.length > 0`, which is the identity when `oversized` is empty). -/
def filesSkippedAfterPartition (contentVersions : List ContentVersionRecord) : Nat :=
  if (oversizedOf contentVersions).length > 0 then (oversizedOf contentVersions).length
  else 0

/-! ## Transfer loop (migration.ts lines 244-399)

The batch loop is embedded as a state-passing function.  Remote and local
I/O is an explicit environment:
* `shouldAbort` — the cancellation predicate; each call of `shouldAbort?.()`
  consumes one tick of a poll clock, so `shouldAbort k` is the value returned
  by the `k`-th poll of the run;
* `pathExists` — whether a scratch path existed before the run
  (`fs.pathExists`, covering a crash between download and upload);
* `downloadResult` — outcome of `downloadContentVersion` for a version id;
* `uploadResult` — outcome of `targetConn.sobject('ContentVersion').create`
  for one file, keyed by the source version id: `ok newVersionId` when
  `insertResult.success && insertResult.id`, otherwise the thrown message;
* `resolveDocId` — the resolve query: for a created version id, the
  `ContentDocumentId` of its row, or `none` when no row comes back.

Observable actions are recorded as an `Event` transcript. -/

structure TransferEnv where
  shouldAbort : Nat → Bool
  pathExists : String → Bool
  downloadResult : String → Except String Unit
  uploadResult : String → Except String String
  resolveDocId : String → Option String

inductive Event where
  /-- an actual network fetch of a file (not skipped via `pathExists`) -/
  | download (cv : ContentVersionRecord)
  /-- `fs.remove` of a scratch file -/
  | removeFile (path : String)
  /-- a `create ContentVersion` call for this file -/
  | uploadAttempt (cv : ContentVersionRecord)
  /-- an `onProgress({completed, stats})` callback after a batch -/
  | progress (completed : List (String × String)) (stats : MigrationResults)
  /-- a `create ContentDocumentLink` call for one insert batch -/
  | createLinks (batch : List LinkToCreate)
  /-- `cleanupTempDir` of the scratch directory -/
  | cleanupTemp (dir : String)
deriving Repr, DecidableEq

/-- `path.join(tempDir, `${cv.Id}_${cv.PathOnClient}`)`. -/
def filePathOf (tempDir : String) (cv : ContentVersionRecord) : String :=
  tempDir ++ "/" ++ cv.Id ++ "_" ++ cv.PathOnClient

/-- State of the download loop (migration.ts lines 282-298). -/
structure DlState where
  clock : Nat
  events : List Event
  downloaded : List (ContentVersionRecord × String)
  failed : Nat
  errors : List MigrationError
  written : List String
deriving Repr

/-- The per-batch download loop: poll the cancellation predicate before each
file (`break` on true), skip the fetch when the path already exists, record
per-file failures and continue. -/
def downloadLoop (env : TransferEnv) (tempDir : String) :
    List ContentVersionRecord → DlState → DlState
  | [], s => s
  | cv :: rest, s =>
    if env.shouldAbort s.clock then { s with clock := s.clock + 1 }
    else
      let s1 : DlState := { s with clock := s.clock + 1 }
      let p := filePathOf tempDir cv
      if env.pathExists p || s1.written.contains p then
        downloadLoop env tempDir rest
          { s1 with downloaded := s1.downloaded ++ [(cv, p)] }
      else
        match env.downloadResult cv.Id with
        | .ok _ =>
          downloadLoop env tempDir rest
            { s1 with
              events := s1.events ++ [.download cv]
              written := s1.written ++ [p]
              downloaded := s1.downloaded ++ [(cv, p)] }
        | .error e =>
          downloadLoop env tempDir rest
            { s1 with
              failed := s1.failed + 1
              errors := s1.errors ++ [⟨some cv.Title, "download", e⟩] }

/-- State of the upload loop (migration.ts lines 310-341). -/
structure UlState where
  clock : Nat
  events : List Event
  uploads : List (String × String)
  uploadedCount : Nat
  failedCount : Nat
  errors : List MigrationError
deriving Repr

/-- The per-batch upload loop: poll the cancellation predicate before each
file (`break` on true; note the loop does **not** set the `aborted` flag),
attempt the `create` call for every downloaded file, record per-file
failures and continue.  `uploads` collects
`{versionId, sourceDocId := cv.ContentDocumentId}` pairs. -/
def uploadLoop (env : TransferEnv) :
    List (ContentVersionRecord × String) → UlState → UlState
  | [], s => s
  | (cv, _) :: rest, s =>
    if env.shouldAbort s.clock then { s with clock := s.clock + 1 }
    else
      let s1 : UlState :=
        { s with clock := s.clock + 1, events := s.events ++ [.uploadAttempt cv] }
      match env.uploadResult cv.Id with
      | .ok versionId =>
        uploadLoop env rest
          { s1 with
            uploads := s1.uploads ++ [(versionId, cv.ContentDocumentId)]
            uploadedCount := s1.uploadedCount + 1 }
      | .error e =>
        uploadLoop env rest
          { s1 with
            failedCount := s1.failedCount + 1
            errors := s1.errors ++ [⟨some cv.Title, "upload", e⟩] }

/-- The resolve step (migration.ts lines 343-370): one chunked query over the
batch's new version ids; each returned row with a truthy `ContentDocumentId`
and a known correlation becomes a `batchCompleted` entry
`sourceDocId ↦ targetDocId` (JS object assignment = upsert). -/
def resolveBatch (env : TransferEnv) (uploads : List (String × String)) :
    List (String × String) :=
  let versionIds := uploads.map Prod.fst
  let idToSourceDoc := uploads.foldl (fun m p => mapSet m p.1 p.2) []
  let rows := versionIds.filterMap
    (fun vid => (env.resolveDocId vid).map (fun d => (vid, d)))
  rows.foldl
    (fun acc r =>
      match mapGet idToSourceDoc r.1 with
      | some sourceDocId => if r.2.isEmpty then acc else mapSet acc sourceDocId r.2
      | none => acc)
    []

/-- State threaded through the batch loop (migration.ts lines 248-283,
372-383). `persisted` mirrors the `onProgress` handler of migrate.ts
lines 133-139: the caller's copy of `state.completed`, merged and saved on
every `progress` callback. -/
structure BatchState where
  clock : Nat
  events : List Event
  results : MigrationResults
  sourceDocToTargetDoc : List (String × String)
  persisted : List (String × String)
  aborted : Bool
deriving Repr

/-- One iteration of the batch loop body after the top-of-loop abort check:
download phase, post-download abort check (lines 300-308), upload phase,
resolve, `onProgress` when the batch resolved at least one entry
(lines 372-375), and scratch cleanup for the batch (lines 377-380). -/
def processBatch (env : TransferEnv) (tempDir : String)
    (batch : List ContentVersionRecord) (s : BatchState) : BatchState :=
  let dl := downloadLoop env tempDir batch
    { clock := s.clock, events := [], downloaded := [], failed := 0, errors := []
      written := [] }
  let results1 : MigrationResults :=
    { s.results with
      filesFailed := s.results.filesFailed + dl.failed
      errors := s.results.errors ++ dl.errors }
  if env.shouldAbort dl.clock then
    -- lines 300-308: delete this incomplete batch's downloads, set `aborted`
    { clock := dl.clock + 1
      events := s.events ++ dl.events ++ dl.downloaded.map (fun f => .removeFile f.2)
      results := results1
      sourceDocToTargetDoc := s.sourceDocToTargetDoc
      persisted := s.persisted
      aborted := true }
  else
    let ul := uploadLoop env dl.downloaded
      { clock := dl.clock + 1, events := [], uploads := [], uploadedCount := 0
        failedCount := 0, errors := [] }
    let results2 : MigrationResults :=
      { results1 with
        filesUploaded := results1.filesUploaded + ul.uploadedCount
        filesFailed := results1.filesFailed + ul.failedCount
        errors := results1.errors ++ ul.errors }
    let batchCompleted := resolveBatch env ul.uploads
    let docMap := mapMerge s.sourceDocToTargetDoc batchCompleted
    let persisted1 :=
      if batchCompleted.isEmpty then s.persisted else mapMerge s.persisted batchCompleted
    let progressEvents : List Event :=
      if batchCompleted.isEmpty then [] else [.progress batchCompleted results2]
    { clock := ul.clock
      events := s.events ++ dl.events ++ ul.events ++ progressEvents
        ++ dl.downloaded.map (fun f => .removeFile f.2)
      results := results2
      sourceDocToTargetDoc := docMap
      persisted := persisted1
      aborted := false }

/-- The batch loop (migration.ts lines 268-383): poll the cancellation
predicate at the top of every iteration (lines 269-273) and stop with
`aborted` when it fires; otherwise run the batch body and continue unless
the body aborted. -/
def runBatches (env : TransferEnv) (tempDir : String) :
    List (List ContentVersionRecord) → BatchState → BatchState
  | [], s => s
  | b :: rest, s =>
    if env.shouldAbort s.clock then
      { s with clock := s.clock + 1, aborted := true }
    else
      let s1 := processBatch env tempDir b { s with clock := s.clock + 1 }
      if s1.aborted then s1 else runBatches env tempDir rest s1

/-- `pendingVersions` (migration.ts line 260): the migrateable files whose
`ContentDocumentId` is not a truthy key of the resumed `completed` map. -/
def pendingVersionsOf (completed : List (String × String))
    (migrateableVersions : List ContentVersionRecord) : List ContentVersionRecord :=
  migrateableVersions.filter (fun cv => !truthy (mapGet completed cv.ContentDocumentId))

/-- Lines 248-266 and 268: seed `sourceDocToTargetDoc` from the resumed
`completed` map, compute `pendingVersions` and run the batch loop over its
`BATCH_SIZE`-chunks. -/
def runTransferLoop (env : TransferEnv) (tempDir : String)
    (completed : List (String × String))
    (migrateableVersions : List ContentVersionRecord)
    (results : MigrationResults) (clock : Nat) : BatchState :=
  let seeded := mapMerge [] completed
  let pending := pendingVersionsOf completed migrateableVersions
  runBatches env tempDir (chunksOf BATCH_SIZE pending)
    { clock := clock, events := [], results := results
      sourceDocToTargetDoc := seeded, persisted := completed, aborted := false }

/-! ## Lemmas about the transfer loop -/

theorem downloadLoop_events_sub (env : TransferEnv) (tempDir : String)
    (batch : List ContentVersionRecord) :
    ∀ s, ∀ e ∈ (downloadLoop env tempDir batch s).events,
      e ∈ s.events ∨ ∃ cv ∈ batch, e = Event.download cv := by
  induction batch with
  | nil => intro s e he; exact Or.inl he
  | cons cv rest ih =>
    intro s e he
    rw [downloadLoop] at he
    by_cases hab : env.shouldAbort s.clock
    · simp only [hab, if_true] at he
      exact Or.inl he
    · simp only [hab, Bool.false_eq_true, if_false] at he
      by_cases hex : (env.pathExists (filePathOf tempDir cv)
          || s.written.contains (filePathOf tempDir cv)) = true
      · simp only [hex, if_true] at he
        rcases ih _ e he with h | ⟨cv', hcv', he'⟩
        · exact Or.inl h
        · exact Or.inr ⟨cv', List.mem_cons_of_mem _ hcv', he'⟩
      · simp only [hex, if_false] at he
        cases hdl : env.downloadResult cv.Id with
        | ok u =>
          rw [hdl] at he
          rcases ih _ e he with h | ⟨cv', hcv', he'⟩
          · rcases List.mem_append.mp h with h' | h'
            · exact Or.inl h'
            · simp only [List.mem_singleton] at h'
              exact Or.inr ⟨cv, List.mem_cons_self _ _, h'⟩
          · exact Or.inr ⟨cv', List.mem_cons_of_mem _ hcv', he'⟩
        | error er =>
          rw [hdl] at he
          rcases ih _ e he with h | ⟨cv', hcv', he'⟩
          · exact Or.inl h
          · exact Or.inr ⟨cv', List.mem_cons_of_mem _ hcv', he'⟩

theorem downloadLoop_downloaded_sub (env : TransferEnv) (tempDir : String)
    (batch : List ContentVersionRecord) :
    ∀ s, ∀ f ∈ (downloadLoop env tempDir batch s).downloaded,
      f ∈ s.downloaded ∨ f.1 ∈ batch := by
  induction batch with
  | nil => intro s f hf; exact Or.inl hf
  | cons cv rest ih =>
    intro s f hf
    rw [downloadLoop] at hf
    by_cases hab : env.shouldAbort s.clock
    · simp only [hab, if_true] at hf
      exact Or.inl hf
    · simp only [hab, Bool.false_eq_true, if_false] at hf
      by_cases hex : (env.pathExists (filePathOf tempDir cv)
          || s.written.contains (filePathOf tempDir cv)) = true
      · simp only [hex, if_true] at hf
        rcases ih _ f hf with h | h
        · rcases List.mem_append.mp h with h' | h'
          · exact Or.inl h'
          · simp only [List.mem_singleton] at h'
            subst h'
            exact Or.inr (List.mem_cons_self _ _)
        · exact Or.inr (List.mem_cons_of_mem _ h)
      · simp only [hex, if_false] at hf
        cases hdl : env.downloadResult cv.Id with
        | ok u =>
          rw [hdl] at hf
          rcases ih _ f hf with h | h
          · rcases List.mem_append.mp h with h' | h'
            · exact Or.inl h'
            · simp only [List.mem_singleton] at h'
              subst h'
              exact Or.inr (List.mem_cons_self _ _)
          · exact Or.inr (List.mem_cons_of_mem _ h)
        | error er =>
          rw [hdl] at hf
          rcases ih _ f hf with h | h
          · exact Or.inl h
          · exact Or.inr (List.mem_cons_of_mem _ h)

theorem uploadLoop_events_sub (env : TransferEnv)
    (files : List (ContentVersionRecord × String)) :
    ∀ s, ∀ e ∈ (uploadLoop env files s).events,
      e ∈ s.events ∨ ∃ f ∈ files, e = Event.uploadAttempt f.1 := by
  induction files with
  | nil => intro s e he; exact Or.inl he
  | cons f rest ih =>
    intro s e he
    obtain ⟨cv, p⟩ := f
    rw [uploadLoop] at he
    by_cases hab : env.shouldAbort s.clock
    · simp only [hab, if_true] at he
      exact Or.inl he
    · simp only [hab, Bool.false_eq_true, if_false] at he
      have step : ∀ s' , (∀ e' ∈ (s' : UlState).events,
            e' ∈ s.events ++ [Event.uploadAttempt cv]) →
          (∀ e' ∈ (uploadLoop env rest s').events,
            e' ∈ s.events ∨ ∃ f ∈ (cv, p) :: rest, e' = Event.uploadAttempt f.1) := by
        intro s' hs' e' he'
        rcases ih s' e' he' with h | ⟨f', hf', he''⟩
        · rcases List.mem_append.mp (hs' _ h) with h' | h'
          · exact Or.inl h'
          · simp only [List.mem_singleton] at h'
            exact Or.inr ⟨(cv, p), List.mem_cons_self _ _, h'⟩
        · exact Or.inr ⟨f', List.mem_cons_of_mem _ hf', he''⟩
      cases hup : env.uploadResult cv.Id with
      | ok vid =>
        rw [hup] at he
        exact step _ (fun e' h => h) e he
      | error er =>
        rw [hup] at he
        exact step _ (fun e' h => h) e he

theorem processBatch_events_sub (env : TransferEnv) (tempDir : String)
    (b : List ContentVersionRecord) (s : BatchState) :
    ∀ e ∈ (processBatch env tempDir b s).events,
      e ∈ s.events ∨ (∃ cv ∈ b, e = Event.download cv ∨ e = Event.uploadAttempt cv)
        ∨ (∃ p, e = Event.removeFile p) ∨ (∃ m r, e = Event.progress m r) := by
  intro e he
  rw [processBatch] at he
  set dl := downloadLoop env tempDir b
    { clock := s.clock, events := [], downloaded := [], failed := 0, errors := []
      written := [] } with hdl
  have hdlev : ∀ e' ∈ dl.events, ∃ cv ∈ b, e' = Event.download cv := by
    intro e' he'
    rcases downloadLoop_events_sub env tempDir b _ e' he' with h | h
    · simp at h
    · exact h
  have hdldn : ∀ f ∈ dl.downloaded, f.1 ∈ b := by
    intro f hf
    rcases downloadLoop_downloaded_sub env tempDir b _ f hf with h | h
    · simp at h
    · exact h
  by_cases hab : env.shouldAbort dl.clock
  · simp only [hab, if_true] at he
    simp only [List.mem_append] at he
    rcases he with (he | he) | he
    · exact Or.inl he
    · rcases hdlev e he with ⟨cv, hcv, he'⟩
      exact Or.inr (Or.inl ⟨cv, hcv, Or.inl he'⟩)
    · rcases List.mem_map.mp he with ⟨f, _, he'⟩
      exact Or.inr (Or.inr (Or.inl ⟨f.2, he'.symm⟩))
  · simp only [hab, Bool.false_eq_true, if_false] at he
    set ul := uploadLoop env dl.downloaded
      { clock := dl.clock + 1, events := [], uploads := [], uploadedCount := 0
        failedCount := 0, errors := [] } with hul
    have hulev : ∀ e' ∈ ul.events, ∃ f ∈ dl.downloaded, e' = Event.uploadAttempt f.1 := by
      intro e' he'
      rcases uploadLoop_events_sub env dl.downloaded _ e' he' with h | h
      · simp at h
      · exact h
    simp only [List.mem_append] at he
    rcases he with (((he | he) | he) | he) | he
    · exact Or.inl he
    · rcases hdlev e he with ⟨cv, hcv, he'⟩
      exact Or.inr (Or.inl ⟨cv, hcv, Or.inl he'⟩)
    · rcases hulev e he with ⟨f, hf, he'⟩
      exact Or.inr (Or.inl ⟨f.1, hdldn f hf, Or.inr he'⟩)
    · by_cases hbc : (resolveBatch env ul.uploads).isEmpty
      · simp only [hbc, if_true] at he
        simp at he
      · simp only [hbc, Bool.false_eq_true, if_false, List.mem_singleton] at he
        exact Or.inr (Or.inr (Or.inr ⟨_, _, he⟩))
    · rcases List.mem_map.mp he with ⟨f, _, he'⟩
      exact Or.inr (Or.inr (Or.inl ⟨f.2, he'.symm⟩))

theorem runBatches_events_sub (env : TransferEnv) (tempDir : String)
    (batches : List (List ContentVersionRecord)) :
    ∀ s, ∀ e ∈ (runBatches env tempDir batches s).events,
      e ∈ s.events
        ∨ (∃ b ∈ batches, ∃ cv ∈ b, e = Event.download cv ∨ e = Event.uploadAttempt cv)
        ∨ (∃ p, e = Event.removeFile p) ∨ (∃ m r, e = Event.progress m r) := by
  induction batches with
  | nil => intro s e he; exact Or.inl he
  | cons b rest ih =>
    intro s e he
    rw [runBatches] at he
    have lift : ∀ e',
        (e' ∈ s.events
          ∨ (∃ b' ∈ [b], ∃ cv ∈ b', e' = Event.download cv ∨ e' = Event.uploadAttempt cv)
          ∨ (∃ p, e' = Event.removeFile p) ∨ (∃ m r, e' = Event.progress m r)) →
        (e' ∈ s.events
          ∨ (∃ b' ∈ b :: rest, ∃ cv ∈ b', e' = Event.download cv ∨ e' = Event.uploadAttempt cv)
          ∨ (∃ p, e' = Event.removeFile p) ∨ (∃ m r, e' = Event.progress m r)) := by
      intro e' h
      rcases h with h | ⟨b', hb', hrest⟩ | h | h
      · exact Or.inl h
      · simp only [List.mem_singleton] at hb'
        subst hb'
        exact Or.inr (Or.inl ⟨b', List.mem_cons_self _ _, hrest⟩)
      · exact Or.inr (Or.inr (Or.inl h))
      · exact Or.inr (Or.inr (Or.inr h))
    by_cases hab : env.shouldAbort s.clock
    · simp only [hab, if_true] at he
      exact Or.inl he
    · simp only [hab, Bool.false_eq_true, if_false] at he
      by_cases habd : (processBatch env tempDir b { s with clock := s.clock + 1 }).aborted
      · simp only [habd, if_true] at he
        have := processBatch_events_sub env tempDir b { s with clock := s.clock + 1 } e he
        exact lift e (by simpa using this)
      · simp only [habd, Bool.false_eq_true, if_false] at he
        rcases ih _ e he with h | h | h | h
        · have := processBatch_events_sub env tempDir b { s with clock := s.clock + 1 } e h
          exact lift e (by simpa using this)
        · rcases h with ⟨b', hb', hrest⟩
          exact Or.inr (Or.inl ⟨b', List.mem_cons_of_mem _ hb', hrest⟩)
        · exact Or.inr (Or.inr (Or.inl h))
        · exact Or.inr (Or.inr (Or.inr h))

theorem runTransferLoop_events_sub (env : TransferEnv) (tempDir : String)
    (completed : List (String × String))
    (migrateableVersions : List ContentVersionRecord)
    (results : MigrationResults) (clock : Nat) :
    ∀ e ∈ (runTransferLoop env tempDir completed migrateableVersions results clock).events,
      (∃ cv ∈ pendingVersionsOf completed migrateableVersions,
          e = Event.download cv ∨ e = Event.uploadAttempt cv)
        ∨ (∃ p, e = Event.removeFile p) ∨ (∃ m r, e = Event.progress m r) := by
  intro e he
  rw [runTransferLoop] at he
  rcases runBatches_events_sub env tempDir _ _ e he with h | ⟨b, hb, cv, hcv, hor⟩ | h | h
  · simp at h
  · refine Or.inl ⟨cv, ?_, hor⟩
    have : cv ∈ (chunksOf BATCH_SIZE (pendingVersionsOf completed migrateableVersions)).flatten :=
      List.mem_flatten.mpr ⟨b, hb, hcv⟩
    rwa [chunksOf_flatten _ _ (by decide)] at this
  · exact Or.inr (Or.inl h)
  · exact Or.inr (Or.inr h)

/-! ## Lemmas about the JS map model -/

theorem truthy_mapGet_eq_mapHas (m : List (String × String)) (k : String)
    (hvals : ∀ p ∈ m, p.2 ≠ "") :
    truthy (mapGet m k) = mapHas m k := by
  unfold mapGet mapHas truthy
  cases hf : m.find? (fun p => p.1 = k) with
  | none =>
    rw [List.find?_eq_none] at hf
    have hany : (m.any fun p => decide (p.1 = k)) = false := by
      rw [List.any_eq_false]
      intro p hp
      simpa using hf p hp
    simp [hany]
  | some q =>
    have hmem : q ∈ m := List.mem_of_find?_eq_some hf
    have hkey : q.1 = k := by simpa using List.find?_some hf
    have hval : q.2 ≠ "" := hvals q hmem
    have h1 : q.2.isEmpty = false := by
      cases he : q.2.isEmpty
      · rfl
      · exact absurd ((String.isEmpty_iff _).mp he) hval
    have h2 : (m.any fun p => decide (p.1 = k)) = true :=
      List.any_eq_true.mpr ⟨q, hmem, by simpa using hkey⟩
    simp [h1, h2]

theorem mapSet_of_not_has {β : Type} (m : List (String × β)) (k : String) (v : β)
    (h : mapHas m k = false) : mapSet m k v = m ++ [(k, v)] := by
  induction m with
  | nil => rfl
  | cons p rest ih =>
    unfold mapHas at h
    simp only [List.any_cons, Bool.or_eq_false_iff, decide_eq_false_iff_not] at h
    rw [mapSet, if_neg h.1, ih ?_]
    · simp
    · unfold mapHas
      rw [List.any_eq_false]
      intro q hq
      have := (List.any_eq_false.mp h.2) q hq
      simpa using this

theorem mapHas_append {β : Type} (m1 m2 : List (String × β)) (k : String) :
    mapHas (m1 ++ m2) k = (mapHas m1 k || mapHas m2 k) := by
  unfold mapHas
  exact List.any_append

theorem mapGet_mapSet {β : Type} (m : List (String × β)) (k : String) (v : β)
    (k' : String) :
    mapGet (mapSet m k v) k' = if k' = k then some v else mapGet m k' := by
  induction m with
  | nil =>
    by_cases hk : k' = k
    · subst hk
      simp [mapSet, mapGet, List.find?]
    · simp only [mapSet, mapGet, List.find?]
      rw [if_neg hk]
      have : (decide (k = k')) = false := by
        simpa using fun he => hk he.symm
      simp [this]
  | cons p rest ih =>
    rw [mapSet]
    by_cases hp : p.1 = k
    · rw [if_pos hp]
      by_cases hk : k' = k
      · subst hk
        unfold mapGet
        rw [List.find?_cons_of_pos _ (by simp)]
        simp
      · unfold mapGet
        rw [List.find?_cons_of_neg _ (by simpa using fun he => hk he.symm)]
        rw [if_neg hk]
        show _ = ((p :: rest).find? (fun q => q.1 = k')).map Prod.snd
        rw [List.find?_cons_of_neg _ (by
          simp only [decide_eq_true_eq]
          rw [hp]
          exact fun he => hk he.symm)]
    · rw [if_neg hp]
      by_cases hq : p.1 = k'
      · unfold mapGet
        rw [List.find?_cons_of_pos _ (by simpa using hq)]
        have hk : k' ≠ k := fun he => hp (he ▸ hq)
        rw [if_neg hk]
        show _ = ((p :: rest).find? (fun q => q.1 = k')).map Prod.snd
        rw [List.find?_cons_of_pos _ (by simpa using hq)]
      · unfold mapGet at ih ⊢
        rw [List.find?_cons_of_neg _ (by simpa using hq)]
        rw [ih]
        by_cases hk : k' = k
        · rw [if_pos hk, if_pos hk]
        · rw [if_neg hk, if_neg hk]
          show _ = ((p :: rest).find? (fun q => q.1 = k')).map Prod.snd
          rw [List.find?_cons_of_neg _ (by simpa using hq)]

theorem mapHas_mapSet {β : Type} (m : List (String × β)) (k : String) (v : β)
    (k' : String) :
    mapHas (mapSet m k v) k' = (decide (k' = k) || mapHas m k') := by
  induction m with
  | nil =>
    simp only [mapSet, mapHas, List.any_cons, List.any_nil, Bool.or_false]
    by_cases hk : k' = k
    · subst hk; simp
    · have h1 : (decide (k = k')) = false := by
        simpa using fun he => hk he.symm
      have h2 : (decide (k' = k)) = false := by simpa using hk
      simp [h1, h2]
  | cons p rest ih =>
    rw [mapSet]
    by_cases hp : p.1 = k
    · rw [if_pos hp]
      unfold mapHas
      simp only [List.any_cons]
      by_cases hk : k' = k
      · subst hk
        simp [hp]
      · have h2 : (decide (k' = k)) = false := by simpa using hk
        have h3 : (decide (k = k')) = false := by
          simpa using fun he => hk he.symm
        have h4 : (decide (p.1 = k')) = false := by
          simp only [decide_eq_false_iff_not]
          rw [hp]
          exact fun he => hk he.symm
        simp [h3, h4, h2]
    · rw [if_neg hp]
      unfold mapHas at ih ⊢
      simp only [List.any_cons, ih]
      cases hq : decide (p.1 = k') <;> cases hr : decide (k' = k) <;> simp

/-- Rebuilding a JS object from entries with pairwise-distinct keys gives
back those entries. -/
theorem mapMerge_eq_append (l : List (String × String))
    (hnd : (l.map Prod.fst).Nodup) :
    ∀ m, (∀ p ∈ l, mapHas m p.1 = false) → mapMerge m l = m ++ l := by
  induction l with
  | nil => intro m _; simp [mapMerge]
  | cons q rest ih =>
    intro m hdisj
    obtain ⟨k, v⟩ := q
    have hk : mapHas m k = false := hdisj (k, v) (List.mem_cons_self _ _)
    have step : mapMerge m ((k, v) :: rest) = mapMerge (m ++ [(k, v)]) rest := by
      unfold mapMerge
      simp only [List.foldl_cons]
      rw [mapSet_of_not_has m k v hk]
    rw [step]
    simp only [List.map_cons, List.nodup_cons] at hnd
    rw [ih hnd.2 (m ++ [(k, v)]) ?_]
    · simp
    · intro p hp
      rw [mapHas_append]
      have h1 : mapHas m p.1 = false := hdisj p (List.mem_cons_of_mem _ hp)
      have h2 : mapHas [(k, v)] p.1 = false := by
        unfold mapHas
        simp only [List.any_cons, List.any_nil, Bool.or_false]
        have hne : p.1 ≠ k := by
          intro he
          exact hnd.1 (he ▸ (List.mem_map.mpr ⟨p, hp, rfl⟩))
        simpa using Ne.symm hne
      rw [h1, h2]
      rfl

theorem mapMerge_nil_eq_self (l : List (String × String))
    (hnd : (l.map Prod.fst).Nodup) : mapMerge [] l = l := by
  rw [mapMerge_eq_append l hnd [] (by intro p _; rfl)]
  rfl

/-! ## Persistence invariant of the batch loop -/

theorem processBatch_persisted (env : TransferEnv) (tempDir : String)
    (b : List ContentVersionRecord) (s : BatchState)
    (h : s.persisted = s.sourceDocToTargetDoc) :
    (processBatch env tempDir b s).persisted
      = (processBatch env tempDir b s).sourceDocToTargetDoc := by
  simp only [processBatch]
  set dl := downloadLoop env tempDir b
    { clock := s.clock, events := [], downloaded := [], failed := 0, errors := []
      written := [] } with hdl
  by_cases hab : env.shouldAbort dl.clock
  · simp only [hab, if_true]
    exact h
  · simp only [hab, Bool.false_eq_true, if_false]
    set ul := uploadLoop env dl.downloaded
      { clock := dl.clock + 1, events := [], uploads := [], uploadedCount := 0
        failedCount := 0, errors := [] } with hul
    set bc := resolveBatch env ul.uploads with hbc
    by_cases he : bc.isEmpty
    · have hbce : bc = [] := List.isEmpty_iff.mp he
      simp only [he, if_true]
      rw [hbce]
      simpa [mapMerge] using h
    · simp only [he, Bool.false_eq_true, if_false]
      rw [h]
  

theorem runBatches_persisted (env : TransferEnv) (tempDir : String)
    (batches : List (List ContentVersionRecord)) :
    ∀ s : BatchState, s.persisted = s.sourceDocToTargetDoc →
      (runBatches env tempDir batches s).persisted
        = (runBatches env tempDir batches s).sourceDocToTargetDoc := by
  induction batches with
  | nil => intro s h; exact h
  | cons b rest ih =>
    intro s h
    rw [runBatches]
    by_cases hab : env.shouldAbort s.clock
    · simp only [hab, if_true]
      exact h
    · simp only [hab, Bool.false_eq_true, if_false]
      have h1 := processBatch_persisted env tempDir b { s with clock := s.clock + 1 } h
      by_cases habd : (processBatch env tempDir b { s with clock := s.clock + 1 }).aborted
      · simp only [habd, if_true]
        exact h1
      · simp only [habd, Bool.false_eq_true, if_false]
        exact ih _ h1

/-! ## Concrete fixtures used by witnesses and counterexamples -/

/-- An environment in which nothing aborts or fails. -/
def idleEnv : TransferEnv :=
  { shouldAbort := fun _ => false
    pathExists := fun _ => false
    downloadResult := fun _ => .ok ()
    uploadResult := fun i => .ok ("V" ++ i)
    resolveDocId := fun _ => none }

/-- An environment whose downloads all fail. -/
def failDlEnv : TransferEnv :=
  { shouldAbort := fun _ => false
    pathExists := fun _ => false
    downloadResult := fun _ => .error "disk full"
    uploadResult := fun i => .ok ("V" ++ i)
    resolveDocId := fun _ => none }

/-- A file version whose document was already migrated in a previous run. -/
def cvDone : ContentVersionRecord :=
  { Id := "068A", ContentDocumentId := "069A", Title := "a.txt"
    PathOnClient := "a.txt", FileExtension := "txt", ContentSize := 100
    Description := none, VersionNumber := "1" }

/-- A file version not yet migrated. -/
def cvNew : ContentVersionRecord :=
  { Id := "068B", ContentDocumentId := "069B", Title := "b.txt"
    PathOnClient := "b.txt", FileExtension := "txt", ContentSize := 200
    Description := none, VersionNumber := "1" }

/-- A file of exactly the 10 MB ceiling. -/
def cvExact : ContentVersionRecord :=
  { Id := "068E", ContentDocumentId := "069E", Title := "exact.bin"
    PathOnClient := "exact.bin", FileExtension := "bin", ContentSize := 10485760
    Description := none, VersionNumber := "1" }

/-- A file one byte over the 10 MB ceiling. -/
def cvOver : ContentVersionRecord :=
  { Id := "068O", ContentDocumentId := "069O", Title := "over.bin"
    PathOnClient := "over.bin", FileExtension := "bin", ContentSize := 10485761
    Description := none, VersionNumber := "1" }

/-! ## Claim C1 -/

/-- C1: the pending set processed by the transfer loop is exactly the
migrateable files whose document id is not a key of the resumed `completed`
map, and a file whose document id is a key of `completed` is never
downloaded or uploaded again in that run.  (The source tests membership by
JS truthiness of `completed[docId]`, which coincides with key membership
because every recorded target document id is a nonempty string — hypothesis
`hvals`.) -/
theorem spec_C1_pending_set (env : TransferEnv) (tempDir : String)
    (completed : List (String × String)) (migrateable : List ContentVersionRecord)
    (results : MigrationResults) (clock : Nat)
    (hvals : ∀ p ∈ completed, p.2 ≠ "") :
    pendingVersionsOf completed migrateable
      = migrateable.filter (fun cv => !mapHas completed cv.ContentDocumentId)
    ∧ ∀ cv, mapHas completed cv.ContentDocumentId = true →
        Event.download cv ∉
          (runTransferLoop env tempDir completed migrateable results clock).events
        ∧ Event.uploadAttempt cv ∉
          (runTransferLoop env tempDir completed migrateable results clock).events := by
  constructor
  · unfold pendingVersionsOf
    apply List.filter_congr
    intro cv _
    rw [truthy_mapGet_eq_mapHas completed _ hvals]
  · intro cv hhas
    have hnp : cv ∉ pendingVersionsOf completed migrateable := by
      intro hmem
      unfold pendingVersionsOf at hmem
      have h2 := (List.mem_filter.mp hmem).2
      rw [truthy_mapGet_eq_mapHas completed _ hvals, hhas] at h2
      simp at h2
    constructor
    · intro hin
      rcases runTransferLoop_events_sub env tempDir completed migrateable results clock
        _ hin with ⟨cv', hcv', hor | hor⟩ | ⟨p, hp⟩ | ⟨m, r, hmr⟩
      · injection hor with h'
        exact hnp (h' ▸ hcv')
      · cases hor
      · cases hp
      · cases hmr
    · intro hin
      rcases runTransferLoop_events_sub env tempDir completed migrateable results clock
        _ hin with ⟨cv', hcv', hor | hor⟩ | ⟨p, hp⟩ | ⟨m, r, hmr⟩
      · cases hor
      · injection hor with h'
        exact hnp (h' ▸ hcv')
      · cases hp
      · cases hmr

/-- Witness for C1: with `completed = {069A ↦ T1}` and migrateable files
`cvDone` (document 069A) and `cvNew` (document 069B), `cvDone` is never
downloaded by the resumed run. -/
theorem spec_C1_pending_set_witness :
    (∀ p ∈ [("069A", "T1")], p.2 ≠ "")
    ∧ mapHas [("069A", "T1")] cvDone.ContentDocumentId = true
    ∧ Event.download cvDone ∉
        (runTransferLoop idleEnv "/tmp/mig" [("069A", "T1")] [cvDone, cvNew]
          initialResults 0).events :=
  ⟨by decide, by decide,
    ((spec_C1_pending_set idleEnv "/tmp/mig" [("069A", "T1")] [cvDone, cvNew]
      initialResults 0 (by decide)).2 cvDone (by decide)).1⟩

/-! ## Claim C5 -/

/-- C5 (amended): after every transfer batch that resolves at least one
`sourceDocId ↦ targetDocId` entry, those entries are handed to the progress
callback (which merges them into the persisted state) before the next batch
begins; consequently at every batch boundary the caller's persisted
`completed` map equals the engine's in-memory document map — the resumed
entries plus everything resolved by earlier batches.  (A batch that
resolves zero entries skips the callback, so its updated stats are not
persisted — see the counterexample.) -/
theorem spec_C5_checkpoint (env : TransferEnv) (tempDir : String)
    (completed : List (String × String)) (migrateable : List ContentVersionRecord)
    (results : MigrationResults) (clock : Nat)
    (hkeys : (completed.map Prod.fst).Nodup) :
    (∀ (batches : List (List ContentVersionRecord)) (s : BatchState),
        s.persisted = s.sourceDocToTargetDoc →
        (runBatches env tempDir batches s).persisted
          = (runBatches env tempDir batches s).sourceDocToTargetDoc)
    ∧ (runTransferLoop env tempDir completed migrateable results clock).persisted
        = (runTransferLoop env tempDir completed migrateable results clock).sourceDocToTargetDoc := by
  constructor
  · intro batches s h
    exact runBatches_persisted env tempDir batches s h
  · unfold runTransferLoop
    apply runBatches_persisted
    exact (mapMerge_nil_eq_self completed hkeys).symm

/-- Witness for C5 at a concrete resumed run with two migrateable files. -/
theorem spec_C5_checkpoint_witness :
    ([("069A", "T1")].map Prod.fst).Nodup
    ∧ (runTransferLoop idleEnv "/tmp/mig" [("069A", "T1")] [cvDone, cvNew]
        initialResults 0).persisted
      = (runTransferLoop idleEnv "/tmp/mig" [("069A", "T1")] [cvDone, cvNew]
        initialResults 0).sourceDocToTargetDoc :=
  ⟨by decide,
    (spec_C5_checkpoint idleEnv "/tmp/mig" [("069A", "T1")] [cvDone, cvNew]
      initialResults 0 (by decide)).2⟩

/-- C5 counterexample: in a run whose only batch fails its download, the
stats are updated (`filesFailed = 1`) but the progress callback never fires
(the event transcript is empty), so the updated stats are *not* merged into
the persisted state after that batch — refuting the claim that after every
batch the updated stats are persisted. -/
theorem spec_C5_checkpoint_counterexample :
    (runTransferLoop failDlEnv "/tmp/mig" [] [cvNew] initialResults 0).results.filesFailed = 1
    ∧ (runTransferLoop failDlEnv "/tmp/mig" [] [cvNew] initialResults 0).events = [] := by
  decide

/-! ## Claim C6 -/

/-- C6: for an input id list of size N, `queryAllChunked` issues exactly
`⌈N/200⌉` sub-queries, each built from a chunk of at most 200 values, no
value list is split across a chunk boundary (concatenating the chunks gives
back the input), the empty input yields zero queries and an empty result,
and the returned rows are the concatenation of all sub-query results. -/
theorem spec_C6_chunked_query (run : List String → List ρ) (ids : List String) :
    numSubQueries ids = (ids.length + 200 - 1) / 200
    ∧ (∀ c ∈ chunksOf BATCH_SIZE ids, c.length ≤ 200)
    ∧ (chunksOf BATCH_SIZE ids).flatten = ids
    ∧ numSubQueries ([] : List String) = 0
    ∧ queryAllChunked run ([] : List String) = []
    ∧ queryAllChunked run ids = ((chunksOf BATCH_SIZE ids).map run).flatten := by
  refine ⟨?_, ?_, ?_, rfl, rfl, rfl⟩
  · exact chunksOf_count BATCH_SIZE ids (by decide)
  · exact chunksOf_length_le BATCH_SIZE ids
  · exact chunksOf_flatten BATCH_SIZE ids (by decide)

/-! ## Claim C8 -/

/-- C8: a file whose size equals the 10 MB ceiling exactly is migrateable
(and not counted oversized), while a file one byte over the ceiling is in
the oversized set, counted in `filesSkipped`, excluded from the migrateable
set, and never the subject of a download in any transfer run over the
migrateable set. -/
theorem spec_C8_size_ceiling (cvs : List ContentVersionRecord)
    (cv : ContentVersionRecord) (hmem : cv ∈ cvs) :
    (cv.ContentSize = MAX_FILE_SIZE →
        cv ∈ migrateableOf cvs ∧ cv ∉ oversizedOf cvs)
    ∧ (cv.ContentSize = MAX_FILE_SIZE + 1 →
        cv ∈ oversizedOf cvs ∧ cv ∉ migrateableOf cvs
        ∧ filesSkippedAfterPartition cvs = (oversizedOf cvs).length
        ∧ 0 < (oversizedOf cvs).length
        ∧ ∀ env tempDir completed results clock,
            Event.download cv ∉
              (runTransferLoop env tempDir completed (migrateableOf cvs)
                results clock).events) := by
  constructor
  · intro h
    constructor
    · exact List.mem_filter.mpr ⟨hmem, by simp [h]⟩
    · intro hov
      have h2 := (List.mem_filter.mp hov).2
      simp only [h, decide_eq_true_eq] at h2
      omega
  · intro h
    have hov : cv ∈ oversizedOf cvs :=
      List.mem_filter.mpr ⟨hmem, by simp [h]⟩
    have hlen : 0 < (oversizedOf cvs).length := List.length_pos_of_mem hov
    refine ⟨hov, ?_, ?_, hlen, ?_⟩
    · intro hmg
      have h2 := (List.mem_filter.mp hmg).2
      simp only [h, decide_eq_true_eq] at h2
      omega
    · unfold filesSkippedAfterPartition
      rw [if_pos hlen]
    · intro env tempDir completed results clock hin
      rcases runTransferLoop_events_sub env tempDir completed (migrateableOf cvs)
        results clock _ hin with ⟨cv', hcv', hor | hor⟩ | ⟨p, hp⟩ | ⟨m, r, hmr⟩
      · injection hor with h'
        subst h'
        have hmg := (List.mem_filter.mp hcv').1
        have h2 := (List.mem_filter.mp hmg).2
        simp only [h, decide_eq_true_eq] at h2
        omega
      · cases hor
      · cases hp
      · cases hmr

/-- Witness for C8 with a file of exactly 10 MB and one of 10 MB + 1 byte. -/
theorem spec_C8_size_ceiling_witness :
    cvExact ∈ [cvExact, cvOver]
    ∧ cvExact.ContentSize = MAX_FILE_SIZE
    ∧ cvExact ∈ migrateableOf [cvExact, cvOver]
    ∧ cvOver.ContentSize = MAX_FILE_SIZE + 1
    ∧ cvOver ∈ oversizedOf [cvExact, cvOver]
    ∧ Event.download cvOver ∉
        (runTransferLoop idleEnv "/tmp/mig" [] (migrateableOf [cvExact, cvOver])
          initialResults 0).events :=
  ⟨by decide, by decide,
    ((spec_C8_size_ceiling [cvExact, cvOver] cvExact (by decide)).1 (by decide)).1,
    by decide,
    ((spec_C8_size_ceiling [cvExact, cvOver] cvOver (by decide)).2 (by decide)).1,
    ((spec_C8_size_ceiling [cvExact, cvOver] cvOver (by decide)).2
      (by decide)).2.2.2.2 idleEnv "/tmp/mig" [] initialResults 0⟩

/-! ## Record matching, link planning and the full pipeline
(migration.ts lines 71-501)

The four early queries of `runMigration` (source records, links, content
versions, target records) are environment values that may fail (`queryAll`
propagates request failures); the remaining collaborator calls are
environment functions.  SOQL text construction is abstracted into the
query functions, which return the typed rows the source destructures. -/

/-- Build `docToEntityMap` (migration.ts lines 138-146): group link rows by
`ContentDocumentId` in first-encounter order, appending each
`LinkedEntityId`. -/
def addLinkEntry (m : List (String × List String)) (doc ent : String) :
    List (String × List String) :=
  match m with
  | [] => [(doc, [ent])]
  | p :: rest =>
    if p.1 = doc then (p.1, p.2 ++ [ent]) :: rest
    else p :: addLinkEntry rest doc ent

def docToEntityMapOf (links : List LinkRow) : List (String × List String) :=
  links.foldl (fun m l => addLinkEntry m l.ContentDocumentId l.LinkedEntityId) []

/-- `sourceMatchValues` (lines 184-191): the distinct truthy match-field
values in encounter order — `.filter(Boolean)` drops absent and empty
values, `new Set` deduplicates. -/
def sourceMatchValuesOf (sourceRecords : List SourceRecord) : List String :=
  jsSetDedup (sourceRecords.filterMap (fun r =>
    match r.matchVal with
    | some v => if v.isEmpty then none else some v
    | none => none))

/-- `sourceIdToMatchValue` (lines 193-198): record id ↦ truthy match value. -/
def buildSourceIdToMatchValue (sourceRecords : List SourceRecord) :
    List (String × String) :=
  sourceRecords.foldl (fun m rec =>
    match rec.matchVal with
    | some v => if v.isEmpty then m else mapSet m rec.Id v
    | none => m) []

/-- `targetMatchToId` (lines 209-213): match value ↦ target id, later rows
overwriting earlier ones. -/
def buildTargetMatchToId (targetRecords : List TargetRecord) :
    List (String × String) :=
  targetRecords.foldl (fun m rec => mapSet m rec.matchVal rec.Id) []

/-- `sourceToTargetEntityMap` and `unmatchedCount` (lines 215-225). -/
def buildEntityMapping (sourceRecords : List SourceRecord)
    (sourceIdToMatchValue targetMatchToId : List (String × String)) :
    List (String × String) × Nat :=
  sourceRecords.foldl (fun acc rec =>
    match mapGet sourceIdToMatchValue rec.Id with
    | some v =>
      if !v.isEmpty && mapHas targetMatchToId v then
        (mapSet acc.1 rec.Id ((mapGet targetMatchToId v).getD ""), acc.2)
      else (acc.1, acc.2 + 1)
    | none => (acc.1, acc.2 + 1)) ([], 0)

/-- `linksToCreate` (lines 404-426): for each source document's entity list,
look up the target document and target entity; drop the pair when either
lookup misses (or is falsy). -/
def buildLinksToCreate (docToEntityMap : List (String × List String))
    (sourceDocToTargetDoc sourceToTargetEntityMap : List (String × String)) :
    List LinkToCreate :=
  docToEntityMap.foldl (fun acc p =>
    match mapGet sourceDocToTargetDoc p.1 with
    | none => acc
    | some targetDocId =>
      if targetDocId.isEmpty then acc
      else
        acc ++ p.2.foldl (fun acc2 entId =>
          match mapGet sourceToTargetEntityMap entId with
          | none => acc2
          | some targetEntityId =>
            if targetEntityId.isEmpty then acc2
            else acc2 ++ [{ ContentDocumentId := targetDocId
                            LinkedEntityId := targetEntityId
                            ShareType := "V", Visibility := "AllUsers" }]) []) []

/-- The dedup key `` `${ContentDocumentId}:${LinkedEntityId}` `` of
migration.ts lines 442-448. -/
def linkKey (doc ent : String) : String := doc ++ ":" ++ ent

/-- Link dedup (lines 428-449) with the existing-links query modelled
semantically: the target store's link rows whose `ContentDocumentId` is
among the candidates' distinct target document ids are fetched (only when
that id set is nonempty), their keys form `existingLinkKeys`, and
`newLinks` keeps the candidates whose key is not among them. -/
def newLinksOf (targetLinks : List LinkRow) (linksToCreate : List LinkToCreate) :
    List LinkToCreate :=
  let targetDocIds := jsSetDedup (linksToCreate.map (fun l => l.ContentDocumentId))
  let existingLinks :=
    if targetDocIds.isEmpty then []
    else targetLinks.filter (fun l => targetDocIds.contains l.ContentDocumentId)
  let existingLinkKeys :=
    existingLinks.map (fun l => linkKey l.ContentDocumentId l.LinkedEntityId)
  linksToCreate.filter (fun l =>
    !existingLinkKeys.contains (linkKey l.ContentDocumentId l.LinkedEntityId))

/-- Environment of the full pipeline. -/
structure PipelineEnv where
  transfer : TransferEnv
  /-- step-1 source query (`queryAll`): rows or a request failure -/
  sourceQuery : Except String (List SourceRecord)
  /-- step-2 `ContentDocumentLink` query, from the source record ids -/
  linksQuery : List String → Except String (List LinkRow)
  /-- step-3 latest `ContentVersion` query, from the unique document ids -/
  versionsQuery : List String → Except String (List ContentVersionRecord)
  /-- step-4 target-record query, from the distinct source match values -/
  targetQuery : List String → Except String (List TargetRecord)
  /-- step-8 existing-links query, from the candidate target document ids -/
  existingLinksQuery : List String → List LinkRow
  /-- step-8 `create ContentDocumentLink` for one insert batch: per-record
  `(success, error-text)` results, or a thrown batch-level failure -/
  insertLinks : List LinkToCreate → Except String (List (Bool × String))

/-- Per-run options of `runMigration` that the model distinguishes. -/
structure PipelineOptions where
  dryRun : Bool
  /-- resumed state's `completed` entries (`none` = fresh run) -/
  state : Option (List (String × String))
  /-- the scratch directory prepared for the run -/
  tempDir : String

/-- What a run of the model produces. -/
structure RunOutcome where
  results : MigrationResults
  events : List Event
  aborted : Bool
deriving Repr, DecidableEq

/-- The link insert loop (lines 457-477): one `create` call per
`BATCH_SIZE`-slice of `newLinks`; per-record failures are recorded and the
run continues; a thrown batch request is recorded at batch granularity. -/
def insertLinkBatches (env : PipelineEnv) :
    List (List LinkToCreate) → MigrationResults → MigrationResults × List Event
  | [], res => (res, [])
  | batch :: rest, res =>
    match env.insertLinks batch with
    | .ok rs =>
      let res1 := rs.foldl (fun r p =>
        if p.1 then { r with linksCreated := r.linksCreated + 1 }
        else { r with errors := r.errors ++ [⟨none, "link", p.2⟩] }) res
      let (res2, evs) := insertLinkBatches env rest res1
      (res2, Event.createLinks batch :: evs)
    | .error e =>
      let res1 := { res with errors := res.errors ++ [⟨none, "link_batch", e⟩] }
      let (res2, evs) := insertLinkBatches env rest res1
      (res2, Event.createLinks batch :: evs)

/-- The `try`-block of `runMigration` (lines 98-492).  A failing early query
aborts with the error message and the partial outcome accumulated so far;
all other paths return an outcome.  Early returns (no source records, no
links, dry run) mirror lines 112-115, 132-135 and 232-242; the paused
return mirrors lines 396-399; the final cleanup mirrors lines 488-492. -/
def runMigrationBody (env : PipelineEnv) (opts : PipelineOptions) :
    Except (String × RunOutcome) RunOutcome :=
  match env.sourceQuery with
  | .error e => .error (e, ⟨initialResults, [], false⟩)
  | .ok sourceRecords =>
    if sourceRecords.isEmpty then .ok ⟨initialResults, [], false⟩
    else
      match env.linksQuery (sourceRecords.map (fun r => r.Id)) with
      | .error e => .error (e, ⟨initialResults, [], false⟩)
      | .ok links =>
        if links.isEmpty then .ok ⟨initialResults, [], false⟩
        else
          let docToEntityMap := docToEntityMapOf links
          let uniqueDocIds := docToEntityMap.map (fun p => p.1)
          match env.versionsQuery uniqueDocIds with
          | .error e => .error (e, ⟨initialResults, [], false⟩)
          | .ok contentVersions =>
            let results1 :=
              { initialResults with filesFound := contentVersions.length }
            let oversized := oversizedOf contentVersions
            let results2 :=
              if 0 < oversized.length then
                { results1 with filesSkipped := results1.filesSkipped + oversized.length }
              else results1
            let migrateableVersions := migrateableOf contentVersions
            let sourceIdToMatchValue := buildSourceIdToMatchValue sourceRecords
            match env.targetQuery (sourceMatchValuesOf sourceRecords) with
            | .error e => .error (e, ⟨results2, [], false⟩)
            | .ok targetRecords =>
              let targetMatchToId := buildTargetMatchToId targetRecords
              let entityMapping :=
                buildEntityMapping sourceRecords sourceIdToMatchValue targetMatchToId
              if opts.dryRun then .ok ⟨results2, [], false⟩
              else
                let completed := opts.state.getD []
                let st := runTransferLoop env.transfer opts.tempDir completed
                  migrateableVersions results2 0
                if st.aborted then .ok ⟨st.results, st.events, true⟩
                else
                  let linksToCreate := buildLinksToCreate docToEntityMap
                    st.sourceDocToTargetDoc entityMapping.1
                  let targetDocIds :=
                    jsSetDedup (linksToCreate.map (fun l => l.ContentDocumentId))
                  let existingLinks :=
                    if targetDocIds.isEmpty then []
                    else env.existingLinksQuery targetDocIds
                  let existingLinkKeys := existingLinks.map
                    (fun l => linkKey l.ContentDocumentId l.LinkedEntityId)
                  let newLinks := linksToCreate.filter (fun l =>
                    !existingLinkKeys.contains
                      (linkKey l.ContentDocumentId l.LinkedEntityId))
                  let inserted := insertLinkBatches env
                    (chunksOf BATCH_SIZE newLinks) st.results
                  .ok ⟨inserted.1,
                    st.events ++ inserted.2 ++ [Event.cleanupTemp opts.tempDir],
                    false⟩

/-- The whole of `runMigration`: the `catch` block (lines 493-498) turns a
fatal error into a single `stage = "fatal"` entry appended to the results
accumulated so far, and the function returns those results normally — the
scratch directory is not cleaned up on that path. -/
def runMigrationModel (env : PipelineEnv) (opts : PipelineOptions) : RunOutcome :=
  match runMigrationBody env opts with
  | .ok r => r
  | .error (e, outcome) =>
    { outcome with
      results := { outcome.results with
        errors := outcome.results.errors ++ [⟨none, "fatal", e⟩] } }

/-! ## Shape lemmas about the pipeline -/

theorem runTransferLoop_no_createLinks (env : TransferEnv) (tempDir : String)
    (completed : List (String × String))
    (migrateableVersions : List ContentVersionRecord)
    (results : MigrationResults) (clock : Nat) :
    ∀ lb, Event.createLinks lb ∉
      (runTransferLoop env tempDir completed migrateableVersions results clock).events := by
  intro lb hin
  rcases runTransferLoop_events_sub env tempDir completed migrateableVersions results clock
    _ hin with ⟨cv, _, hor | hor⟩ | ⟨p, hp⟩ | ⟨m, r, hmr⟩
  · cases hor
  · cases hor
  · cases hp
  · cases hmr

/-- A fatal (thrown) outcome of the body carries the partial results from
before the throw, an empty event transcript (all four fallible queries
precede any observable action) and a cleared abort flag. -/
theorem runMigrationBody_error_shape (env : PipelineEnv) (opts : PipelineOptions)
    (e : String) (po : RunOutcome)
    (hb : runMigrationBody env opts = .error (e, po)) :
    po.events = [] ∧ po.aborted = false := by
  simp only [runMigrationBody] at hb
  repeat' split at hb
  all_goals simp at hb
  all_goals
    obtain ⟨h1, h2⟩ := hb
    subst h2
    exact ⟨rfl, rfl⟩

/-- An outcome of the body with the abort flag set is the paused return of
line 398: its event transcript is exactly the transfer loop's. -/
theorem runMigrationBody_ok_aborted_shape (env : PipelineEnv) (opts : PipelineOptions)
    (r : RunOutcome) (hb : runMigrationBody env opts = .ok r)
    (habt : r.aborted = true) :
    ∃ completed migV res2,
      r.events = (runTransferLoop env.transfer opts.tempDir completed migV res2 0).events := by
  simp only [runMigrationBody] at hb
  repeat' split at hb
  all_goals simp at hb
  all_goals subst hb
  all_goals try cases habt
  all_goals exact ⟨_, _, _, rfl⟩

theorem runMigrationModel_aborted_no_links (env : PipelineEnv) (opts : PipelineOptions)
    (h : (runMigrationModel env opts).aborted = true) :
    ∀ lb, Event.createLinks lb ∉ (runMigrationModel env opts).events := by
  intro lb hin
  unfold runMigrationModel at h hin
  rcases hb : runMigrationBody env opts with epo | r
  · rw [hb] at h hin
    obtain ⟨e, po⟩ := epo
    have hsh := runMigrationBody_error_shape env opts e po hb
    simp only at h
    rw [hsh.2] at h
    cases h
  · rw [hb] at h hin
    obtain ⟨completed, migV, res2, hev⟩ :=
      runMigrationBody_ok_aborted_shape env opts r hb h
    rw [hev] at hin
    exact runTransferLoop_no_createLinks env.transfer opts.tempDir
      completed migV res2 0 lb hin

/-! ## Claim C4 -/

/-- C4 (amended): if the cancellation predicate is true at the check between
a batch's download phase and its upload phase, the batch's downloaded files
are all deleted from scratch, none of its files are uploaded, and the
engine sets the abort flag; whenever the run ends with the abort flag set,
it returns before the link-creation step, so no association-insert call is
made.  (As stated the claim is stronger: cancellation that first becomes
true at an upload-phase check of the final batch does not set the abort
flag, and link creation still runs — see the counterexample.) -/
theorem spec_C4_abort_check (env : TransferEnv) (tempDir : String)
    (b : List ContentVersionRecord) (s : BatchState)
    (penv : PipelineEnv) (opts : PipelineOptions)
    (habt : env.shouldAbort (downloadLoop env tempDir b
      { clock := s.clock, events := [], downloaded := [], failed := 0, errors := []
        written := [] }).clock = true) :
    ((processBatch env tempDir b s).aborted = true
      ∧ (∀ cv, Event.uploadAttempt cv ∈ (processBatch env tempDir b s).events →
          Event.uploadAttempt cv ∈ s.events)
      ∧ (∀ f ∈ (downloadLoop env tempDir b
          { clock := s.clock, events := [], downloaded := [], failed := 0, errors := []
            written := [] }).downloaded,
          Event.removeFile f.2 ∈ (processBatch env tempDir b s).events))
    ∧ ((runMigrationModel penv opts).aborted = true →
        ∀ lb, Event.createLinks lb ∉ (runMigrationModel penv opts).events) := by
  refine ⟨?_, runMigrationModel_aborted_no_links penv opts⟩
  simp only [processBatch]
  set dl := downloadLoop env tempDir b
    { clock := s.clock, events := [], downloaded := [], failed := 0, errors := []
      written := [] } with hdl
  rw [if_pos habt]
  refine ⟨rfl, ?_, ?_⟩
  · intro cv hin
    simp only [List.mem_append] at hin
    rcases hin with (hin | hin) | hin
    · exact hin
    · rcases downloadLoop_events_sub env tempDir b _ _ hin with h | ⟨cv', _, he⟩
      · simp at h
      · cases he
    · rcases List.mem_map.mp hin with ⟨f, _, he⟩
      cases he
  · intro f hf
    simp only [List.mem_append]
    exact Or.inr (List.mem_map.mpr ⟨f, hf, rfl⟩)

/-- A transfer environment whose cancellation predicate becomes true from
the second poll on: the post-download check of the first batch sees it. -/
def abortEnv : TransferEnv :=
  { shouldAbort := fun i => decide (1 ≤ i)
    pathExists := fun _ => false
    downloadResult := fun _ => .ok ()
    uploadResult := fun i => .ok ("V" ++ i)
    resolveDocId := fun _ => none }

/-- The initial batch-loop state. -/
def bs0 : BatchState :=
  { clock := 0, events := [], results := initialResults
    sourceDocToTargetDoc := [], persisted := [], aborted := false }

/-- A pending file version of source document `D2s`. -/
def cvPend : ContentVersionRecord :=
  { Id := "068P", ContentDocumentId := "D2s", Title := "p.txt"
    PathOnClient := "p.txt", FileExtension := "txt", ContentSize := 100
    Description := none, VersionNumber := "1" }

/-- Options for a fresh non-dry run. -/
def optsPlain : PipelineOptions :=
  { dryRun := false, state := none, tempDir := "/tmp/mig" }

/-- A pipeline environment whose cancellation predicate is always true: the
run pauses at the first top-of-batch check. -/
def envAbortAll : PipelineEnv :=
  { transfer :=
      { shouldAbort := fun _ => true
        pathExists := fun _ => false
        downloadResult := fun _ => .ok ()
        uploadResult := fun i => .ok ("V" ++ i)
        resolveDocId := fun _ => none }
    sourceQuery := .ok [{ Id := "E1s", matchVal := some "M" }]
    linksQuery := fun _ => .ok [{ ContentDocumentId := "D2s", LinkedEntityId := "E1s" }]
    versionsQuery := fun _ => .ok [cvPend]
    targetQuery := fun _ => .ok [{ Id := "E1t", matchVal := "M" }]
    existingLinksQuery := fun _ => []
    insertLinks := fun batch => .ok (batch.map (fun _ => (true, ""))) }

/-- Witness for C4: a one-file batch whose post-download check sees the
cancellation; and a paused run makes no association-insert call. -/
theorem spec_C4_abort_check_witness :
    abortEnv.shouldAbort (downloadLoop abortEnv "/tmp/mig" [cvNew]
      { clock := bs0.clock, events := [], downloaded := [], failed := 0, errors := []
        written := [] }).clock = true
    ∧ (processBatch abortEnv "/tmp/mig" [cvNew] bs0).aborted = true
    ∧ Event.uploadAttempt cvNew ∉ (processBatch abortEnv "/tmp/mig" [cvNew] bs0).events
    ∧ Event.removeFile (filePathOf "/tmp/mig" cvNew)
        ∈ (processBatch abortEnv "/tmp/mig" [cvNew] bs0).events
    ∧ (runMigrationModel envAbortAll optsPlain).aborted = true
    ∧ Event.createLinks [] ∉ (runMigrationModel envAbortAll optsPlain).events := by
  have thm := spec_C4_abort_check abortEnv "/tmp/mig" [cvNew] bs0
    envAbortAll optsPlain (by decide)
  refine ⟨by decide, thm.1.1, ?_, ?_, by decide, thm.2 (by decide) []⟩
  · intro hin
    have := thm.1.2.1 cvNew hin
    simp [bs0] at this
  · exact thm.1.2.2 (cvNew, filePathOf "/tmp/mig" cvNew) (by decide)

/-- A pipeline environment whose cancellation predicate becomes true from
the fourth poll on — i.e. first observed at the upload-phase check of the
only batch — with one previously completed document (`D1s ↦ D1t`) and one
pending file. -/
def envC4 : PipelineEnv :=
  { transfer :=
      { shouldAbort := fun i => decide (3 ≤ i)
        pathExists := fun _ => false
        downloadResult := fun _ => .ok ()
        uploadResult := fun i => .ok ("V" ++ i)
        resolveDocId := fun _ => none }
    sourceQuery := .ok [{ Id := "E1s", matchVal := some "M" }]
    linksQuery := fun _ => .ok
      [{ ContentDocumentId := "D1s", LinkedEntityId := "E1s" },
       { ContentDocumentId := "D2s", LinkedEntityId := "E1s" }]
    versionsQuery := fun _ => .ok [cvPend]
    targetQuery := fun _ => .ok [{ Id := "E1t", matchVal := "M" }]
    existingLinksQuery := fun _ => []
    insertLinks := fun batch => .ok (batch.map (fun _ => (true, ""))) }

/-- Options resuming from a state whose `completed` maps `D1s ↦ D1t`. -/
def optsC4 : PipelineOptions :=
  { dryRun := false, state := some [("D1s", "D1t")], tempDir := "/tmp/mig" }

/-- C4 counterexample: cancellation fires mid-loop (it is false at the
top-of-batch, download and post-download checks — polls 0-2 — and true from
the upload-phase check on, poll 3), the upload is indeed suppressed, yet
the engine does **not** return before the link-creation step: the abort
flag stays false, an association-insert call is made and one association is
created in that run. -/
theorem spec_C4_abort_check_counterexample :
    envC4.transfer.shouldAbort 2 = false
    ∧ envC4.transfer.shouldAbort 3 = true
    ∧ (runMigrationModel envC4 optsC4).results.filesUploaded = 0
    ∧ (runMigrationModel envC4 optsC4).aborted = false
    ∧ (runMigrationModel envC4 optsC4).results.linksCreated = 1
    ∧ Event.createLinks
        [{ ContentDocumentId := "D1t", LinkedEntityId := "E1t"
           ShareType := "V", Visibility := "AllUsers" }]
        ∈ (runMigrationModel envC4 optsC4).events := by
  refine ⟨rfl, rfl, ?_, ?_, ?_, ?_⟩ <;> decide

/-! ## Claim C9 -/

/-- Files for the per-item-failure demonstration. -/
def cvPend2 : ContentVersionRecord :=
  { Id := "068Q", ContentDocumentId := "D3s", Title := "q.txt"
    PathOnClient := "q.txt", FileExtension := "txt", ContentSize := 100
    Description := none, VersionNumber := "1" }

/-- A pipeline environment in which one file's download fails and the other
file transfers and resolves normally. -/
def envPerItem : PipelineEnv :=
  { transfer :=
      { shouldAbort := fun _ => false
        pathExists := fun _ => false
        downloadResult := fun i => if i = "068P" then .error "net down" else .ok ()
        uploadResult := fun i => .ok ("V" ++ i)
        resolveDocId := fun v => if v = "V068Q" then some "D3t" else none }
    sourceQuery := .ok [{ Id := "E1s", matchVal := some "M" }]
    linksQuery := fun _ => .ok
      [{ ContentDocumentId := "D2s", LinkedEntityId := "E1s" },
       { ContentDocumentId := "D3s", LinkedEntityId := "E1s" }]
    versionsQuery := fun _ => .ok [cvPend, cvPend2]
    targetQuery := fun _ => .ok [{ Id := "E1t", matchVal := "M" }]
    existingLinksQuery := fun _ => []
    insertLinks := fun batch => .ok (batch.map (fun _ => (true, ""))) }

/-- C9 (amended): a fatal error (an unrecoverable failure of one of the
early queries) aborts the run immediately — nothing observable happens
after it (empty event transcript, so in particular no scratch or state
cleanup: any existing checkpoint survives for a future resume) — and is
surfaced as a single `stage = "fatal"` entry appended to the returned
result summary, which the function returns normally instead of throwing;
per-item failures are swallowed into the error list and the run continues
to completion (demonstrated on a run that still uploads, links and cleans
up after a failed download). -/
theorem spec_C9_error_handling (env : PipelineEnv) (opts : PipelineOptions)
    (e : String) (po : RunOutcome)
    (hfail : runMigrationBody env opts = .error (e, po)) :
    (runMigrationModel env opts
        = { po with results := { po.results with
            errors := po.results.errors ++ [⟨none, "fatal", e⟩] } })
    ∧ (runMigrationModel env opts).events = []
    ∧ (runMigrationModel env opts).aborted = false
    ∧ (runMigrationModel envPerItem optsPlain).results.filesFailed = 1
    ∧ (runMigrationModel envPerItem optsPlain).results.filesUploaded = 1
    ∧ (runMigrationModel envPerItem optsPlain).results.errors
        = [⟨some "p.txt", "download", "net down"⟩]
    ∧ (runMigrationModel envPerItem optsPlain).results.linksCreated = 1
    ∧ Event.cleanupTemp "/tmp/mig" ∈ (runMigrationModel envPerItem optsPlain).events := by
  have hsh := runMigrationBody_error_shape env opts e po hfail
  have hmodel : runMigrationModel env opts
      = { po with results := { po.results with
          errors := po.results.errors ++ [⟨none, "fatal", e⟩] } } := by
    unfold runMigrationModel
    rw [hfail]
  refine ⟨hmodel, ?_, ?_, by decide, by decide, by decide, by decide, by decide⟩
  · rw [hmodel]
    exact hsh.1
  · rw [hmodel]
    exact hsh.2

/-- A pipeline environment whose very first query fails. -/
def envFatal : PipelineEnv :=
  { transfer := idleEnv
    sourceQuery := .error "INVALID_TYPE: sObject type not supported"
    linksQuery := fun _ => .ok []
    versionsQuery := fun _ => .ok []
    targetQuery := fun _ => .ok []
    existingLinksQuery := fun _ => []
    insertLinks := fun _ => .ok [] }

/-- Witness for C9 at the concrete failing environment. -/
theorem spec_C9_error_handling_witness :
    runMigrationBody envFatal optsPlain
      = .error ("INVALID_TYPE: sObject type not supported",
          ⟨initialResults, [], false⟩)
    ∧ runMigrationModel envFatal optsPlain
      = ⟨{ initialResults with
            errors := [⟨none, "fatal", "INVALID_TYPE: sObject type not supported"⟩] },
          [], false⟩
    ∧ (runMigrationModel envFatal optsPlain).events = [] :=
  ⟨rfl,
    (spec_C9_error_handling envFatal optsPlain _ _ rfl).1,
    (spec_C9_error_handling envFatal optsPlain _ _ rfl).2.1⟩

/-- C9 counterexample: the body throws a fatal error, yet `runMigration`
returns a normal result summary whose error list carries the single
`stage = "fatal"` entry — the error does not propagate to the caller as a
thrown top-level error (the `catch` of migration.ts lines 493-498 swallows
it). -/
theorem spec_C9_error_handling_counterexample :
    runMigrationBody envFatal optsPlain
      = .error ("INVALID_TYPE: sObject type not supported",
          ⟨initialResults, [], false⟩)
    ∧ runMigrationModel envFatal optsPlain
      = ⟨{ initialResults with
            errors := [⟨none, "fatal", "INVALID_TYPE: sObject type not supported"⟩] },
          [], false⟩ :=
  ⟨rfl, rfl⟩

/-! ## Claim C7 -/

/-- No `':'` occurs in the string (Salesforce record ids are alphanumeric,
so the `doc:entity` dedup key separates cleanly). -/
def colonFree (s : String) : Prop := (':' : Char) ∉ s.data

instance (s : String) : Decidable (colonFree s) :=
  inferInstanceAs (Decidable (¬ (':' : Char) ∈ s.data))

theorem jsSetDedup_mem (xs : List String) (a : String) :
    a ∈ jsSetDedup xs ↔ a ∈ xs := by
  suffices h : ∀ acc, a ∈ xs.foldl
      (fun acc x => if acc.contains x then acc else acc ++ [x]) acc
      ↔ a ∈ acc ∨ a ∈ xs by
    have := h []
    simpa [jsSetDedup] using this
  induction xs with
  | nil => intro acc; simp
  | cons x rest ih =>
    intro acc
    rw [List.foldl_cons, ih]
    by_cases hc : acc.contains x
    · rw [if_pos hc]
      have hx : x ∈ acc := by simpa using hc
      constructor
      · rintro (h | h)
        · exact Or.inl h
        · exact Or.inr (List.mem_cons_of_mem _ h)
      · rintro (h | h)
        · exact Or.inl h
        · rcases List.mem_cons.mp h with h' | h'
          · exact Or.inl (h' ▸ hx)
          · exact Or.inr h'
    · rw [if_neg hc]
      constructor
      · rintro (h | h)
        · rcases List.mem_append.mp h with h' | h'
          · exact Or.inl h'
          · simp only [List.mem_singleton] at h'
            exact Or.inr (h' ▸ List.mem_cons_self _ _)
        · exact Or.inr (List.mem_cons_of_mem _ h)
      · rintro (h | h)
        · exact Or.inl (List.mem_append.mpr (Or.inl h))
        · rcases List.mem_cons.mp h with h' | h'
          · exact Or.inl (List.mem_append.mpr (Or.inr (by simp [h'])))
          · exact Or.inr h'

theorem append_colon_inj :
    ∀ (l1 r1 l2 r2 : List Char), (':' : Char) ∉ l1 → (':' : Char) ∉ r1 →
      l1 ++ ':' :: l2 = r1 ++ ':' :: r2 → l1 = r1 ∧ l2 = r2 := by
  intro l1
  induction l1 with
  | nil =>
    intro r1 l2 r2 _ h2 he
    cases r1 with
    | nil =>
      simp only [List.nil_append, List.cons.injEq] at he
      exact ⟨rfl, he.2⟩
    | cons c cs =>
      simp only [List.nil_append, List.cons_append, List.cons.injEq] at he
      exact absurd (he.1 ▸ List.mem_cons_self c cs) (he.1 ▸ h2)
  | cons a as ih =>
    intro r1 l2 r2 h1 h2 he
    cases r1 with
    | nil =>
      simp only [List.cons_append, List.nil_append, List.cons.injEq] at he
      exact absurd (show (':' : Char) ∈ a :: as by
        rw [he.1]; exact List.mem_cons_self _ _) h1
    | cons c cs =>
      simp only [List.cons_append, List.cons.injEq] at he
      have h1' : (':' : Char) ∉ as := fun hc => h1 (List.mem_cons_of_mem _ hc)
      have h2' : (':' : Char) ∉ cs := fun hc => h2 (List.mem_cons_of_mem _ hc)
      obtain ⟨hl, hr⟩ := ih cs l2 r2 h1' h2' he.2
      exact ⟨by rw [he.1, hl], hr⟩

theorem linkKey_inj (a b c d : String) (ha : colonFree a) (hc : colonFree c)
    (h : linkKey a b = linkKey c d) : a = c ∧ b = d := by
  unfold linkKey at h
  have hd : (a ++ ":" ++ b).data = (c ++ ":" ++ d).data := congrArg String.data h
  rw [String.data_append, String.data_append, String.data_append,
    String.data_append] at hd
  have hd' : a.data ++ ':' :: b.data = c.data ++ ':' :: d.data := by
    simpa using hd
  obtain ⟨h1, h2⟩ := append_colon_inj a.data c.data b.data d.data ha hc hd'
  exact ⟨String.ext h1, String.ext h2⟩

/-- C7: the link-dedup step queries the target's existing associations for
the candidate target document ids and keeps exactly the candidate
`(targetDocId, targetEntityId)` pairs not already present in the target
store.  (Hypothesis: the ids involved contain no `':'` — they are
Salesforce ids — so the `doc:entity` dedup keys are injective.) -/
theorem spec_C7_link_dedup (targetLinks : List LinkRow)
    (linksToCreate : List LinkToCreate)
    (hfree1 : ∀ l ∈ targetLinks, colonFree l.ContentDocumentId ∧ colonFree l.LinkedEntityId)
    (hfree2 : ∀ c ∈ linksToCreate, colonFree c.ContentDocumentId ∧ colonFree c.LinkedEntityId) :
    ∀ c, c ∈ newLinksOf targetLinks linksToCreate ↔
      (c ∈ linksToCreate ∧ ¬ ∃ l ∈ targetLinks,
        l.ContentDocumentId = c.ContentDocumentId
          ∧ l.LinkedEntityId = c.LinkedEntityId) := by
  intro c
  unfold newLinksOf
  rw [List.mem_filter]
  constructor
  · rintro ⟨hmem, hkey⟩
    refine ⟨hmem, ?_⟩
    rintro ⟨l, hl, hdoc, hent⟩
    have hdocIn : c.ContentDocumentId ∈
        jsSetDedup (linksToCreate.map (fun l => l.ContentDocumentId)) := by
      rw [jsSetDedup_mem]
      exact List.mem_map.mpr ⟨c, hmem, rfl⟩
    have hne : (jsSetDedup (linksToCreate.map (fun l => l.ContentDocumentId))).isEmpty
        = false := by
      cases he : (jsSetDedup (linksToCreate.map (fun l => l.ContentDocumentId))).isEmpty
      · rfl
      · rw [List.isEmpty_iff] at he
        rw [he] at hdocIn
        cases hdocIn
    rw [hne] at hkey
    simp only [Bool.false_eq_true, if_false] at hkey
    have hlmem : l ∈ targetLinks.filter (fun l =>
        (jsSetDedup (linksToCreate.map (fun l => l.ContentDocumentId))).contains
          l.ContentDocumentId) := by
      rw [List.mem_filter]
      refine ⟨hl, ?_⟩
      rw [hdoc]
      simpa using hdocIn
    have hkeyIn : linkKey c.ContentDocumentId c.LinkedEntityId ∈
        (targetLinks.filter (fun l =>
          (jsSetDedup (linksToCreate.map (fun l => l.ContentDocumentId))).contains
            l.ContentDocumentId)).map
          (fun l => linkKey l.ContentDocumentId l.LinkedEntityId) := by
      refine List.mem_map.mpr ⟨l, hlmem, ?_⟩
      rw [hdoc, hent]
    simp only [Bool.not_eq_true'] at hkey
    exact absurd hkeyIn (by simpa using hkey)
  · rintro ⟨hmem, hno⟩
    refine ⟨hmem, ?_⟩
    by_cases hne : (jsSetDedup (linksToCreate.map (fun l => l.ContentDocumentId))).isEmpty
    · rw [hne]
      simp
    · rw [Bool.not_eq_true] at hne
      rw [hne]
      simp only [Bool.false_eq_true, if_false]
      have hnotin : linkKey c.ContentDocumentId c.LinkedEntityId ∉
          (targetLinks.filter (fun l =>
            (jsSetDedup (linksToCreate.map (fun l => l.ContentDocumentId))).contains
              l.ContentDocumentId)).map
            (fun l => linkKey l.ContentDocumentId l.LinkedEntityId) := by
        intro hin
        rcases List.mem_map.mp hin with ⟨l, hlmem, hkeyeq⟩
        have hl : l ∈ targetLinks := (List.mem_filter.mp hlmem).1
        obtain ⟨hdoc, hent⟩ :=
          linkKey_inj _ _ _ _ (hfree1 l hl).1 (hfree2 c hmem).1 hkeyeq
        exact hno ⟨l, hl, hdoc, hent⟩
      simpa using hnotin

/-- Witness for C7: the spec's own instance — target already holds
`(D1, E1)`, candidates are `(D1,E1)` and `(D1,E2)`; only `(D1,E2)` is
inserted. -/
theorem spec_C7_link_dedup_witness :
    (∀ l ∈ [({ ContentDocumentId := "D1", LinkedEntityId := "E1" } : LinkRow)],
      colonFree l.ContentDocumentId ∧ colonFree l.LinkedEntityId)
    ∧ ({ ContentDocumentId := "D1", LinkedEntityId := "E2", ShareType := "V"
         Visibility := "AllUsers" } : LinkToCreate) ∈
        newLinksOf [{ ContentDocumentId := "D1", LinkedEntityId := "E1" }]
          [{ ContentDocumentId := "D1", LinkedEntityId := "E1", ShareType := "V"
             Visibility := "AllUsers" },
           { ContentDocumentId := "D1", LinkedEntityId := "E2", ShareType := "V"
             Visibility := "AllUsers" }]
    ∧ ({ ContentDocumentId := "D1", LinkedEntityId := "E1", ShareType := "V"
         Visibility := "AllUsers" } : LinkToCreate) ∉
        newLinksOf [{ ContentDocumentId := "D1", LinkedEntityId := "E1" }]
          [{ ContentDocumentId := "D1", LinkedEntityId := "E1", ShareType := "V"
             Visibility := "AllUsers" },
           { ContentDocumentId := "D1", LinkedEntityId := "E2", ShareType := "V"
             Visibility := "AllUsers" }] := by
  refine ⟨by decide, ?_, ?_⟩
  · exact (spec_C7_link_dedup _ _ (by decide) (by decide) _).mpr
      ⟨by decide, by decide⟩
  · intro hin
    have := ((spec_C7_link_dedup _ _ (by decide) (by decide) _).mp hin).2
    exact this ⟨{ ContentDocumentId := "D1", LinkedEntityId := "E1" },
      by decide, rfl, rfl⟩

/-! ## Claim C10 -/

theorem mapHas_of_mapGet_some {β : Type} (m : List (String × β)) (k : String)
    (v : β) (h : mapGet m k = some v) : mapHas m k = true := by
  unfold mapGet at h
  cases hf : m.find? (fun p => p.1 = k) with
  | none => rw [hf] at h; cases h
  | some q =>
    have hkey : q.1 = k := by simpa using List.find?_some hf
    exact List.any_eq_true.mpr
      ⟨q, List.mem_of_find?_eq_some hf, by simpa using hkey⟩

/-- Repeated `Map.set` over a row list: the final binding of a key is the
value of the **last** row carrying it (later rows overwrite earlier ones). -/
theorem foldl_mapSet_lookup {γ : Type} (key val : γ → String) (l : List γ) (k : String) :
    ∀ m0, mapGet (l.foldl (fun m x => mapSet m (key x) (val x)) m0) k
      = (((l.filter (fun x => key x = k)).getLast?).map val).or (mapGet m0 k) := by
  induction l with
  | nil => intro m0; rfl
  | cons x rest ih =>
    intro m0
    rw [List.foldl_cons, ih, List.filter_cons]
    by_cases hx : key x = k
    · rw [if_pos (by simpa using hx)]
      cases hf : rest.filter (fun y => decide (key y = k)) with
      | nil =>
        show mapGet (mapSet m0 (key x) (val x)) k = some (val x)
        rw [mapGet_mapSet, if_pos hx.symm]
      | cons y ys =>
        rw [List.getLast?_cons_cons]
        cases hg : (y :: ys).getLast? with
        | none => exact absurd (List.getLast?_eq_none_iff.mp hg) (by simp)
        | some z => rfl
    · rw [if_neg (by simpa using hx)]
      cases hg : (rest.filter (fun y => decide (key y = k))).getLast? with
      | none =>
        show mapGet (mapSet m0 (key x) (val x)) k = mapGet m0 k
        rw [mapGet_mapSet, if_neg (fun he => hx he.symm)]
      | some z => rfl

theorem foldl_guarded_unrelated {γ : Type} (key : γ → String) (g : γ → Option String)
    (l : List γ) (k : String) (hk : ∀ x ∈ l, key x ≠ k) :
    ∀ m0, mapGet (l.foldl (fun m x =>
        match g x with
        | some v => mapSet m (key x) v
        | none => m) m0) k = mapGet m0 k := by
  induction l with
  | nil => intro m0; rfl
  | cons x rest ih =>
    intro m0
    rw [List.foldl_cons]
    have hk' : ∀ y ∈ rest, key y ≠ k := fun y hy => hk y (List.mem_cons_of_mem _ hy)
    cases hg : g x with
    | none => exact ih hk' m0
    | some v =>
      rw [ih hk']
      rw [mapGet_mapSet, if_neg (fun he => hk x (List.mem_cons_self _ _) he.symm)]

/-- Repeated guarded `Map.set` over rows with pairwise-distinct keys: the
final binding of a row's key is its own guarded value. -/
theorem foldl_guarded_lookup {γ : Type} (key : γ → String) (g : γ → Option String)
    (l : List γ) (b : γ) (hb : b ∈ l) (hnd : (l.map key).Nodup) :
    ∀ m0, mapGet (l.foldl (fun m x =>
        match g x with
        | some v => mapSet m (key x) v
        | none => m) m0) (key b) = (g b).or (mapGet m0 (key b)) := by
  induction l with
  | nil => cases hb
  | cons x rest ih =>
    intro m0
    rw [List.foldl_cons]
    simp only [List.map_cons, List.nodup_cons] at hnd
    rcases List.mem_cons.mp hb with hbx | hbr
    · subst hbx
      have hrest : ∀ y ∈ rest, key y ≠ key b := by
        intro y hy he
        exact hnd.1 (he ▸ List.mem_map.mpr ⟨y, hy, rfl⟩)
      rw [foldl_guarded_unrelated key g rest (key b) hrest]
      cases hg : g b with
      | none => rfl
      | some v =>
        rw [mapGet_mapSet, if_pos rfl]
        rfl
    · rw [ih hbr hnd.2]
      have hxb : key x ≠ key b := by
        intro he
        exact hnd.1 (he ▸ List.mem_map.mpr ⟨b, hbr, rfl⟩)
      cases hg : g x with
      | none => rfl
      | some v =>
        rw [mapGet_mapSet, if_neg (fun he => hxb he.symm)]

/-- The guard of `buildSourceIdToMatchValue` as an optional value. -/
def srcGuard (rec : SourceRecord) : Option String :=
  match rec.matchVal with
  | some v => if v.isEmpty then none else some v
  | none => none

theorem buildSourceIdToMatchValue_eq (sourceRecords : List SourceRecord) :
    buildSourceIdToMatchValue sourceRecords
      = sourceRecords.foldl (fun m rec =>
          match srcGuard rec with
          | some v => mapSet m rec.Id v
          | none => m) [] := by
  unfold buildSourceIdToMatchValue
  apply List.foldl_ext
  intro m rec _
  unfold srcGuard
  cases hm : rec.matchVal with
  | none => rfl
  | some v =>
    by_cases hv : v.isEmpty
    · simp [hv]
    · simp [hv]

/-- The guard of `buildEntityMapping` as an optional target id. -/
def entGuard (sourceIdToMatchValue targetMatchToId : List (String × String))
    (rec : SourceRecord) : Option String :=
  match mapGet sourceIdToMatchValue rec.Id with
  | some v =>
    if !v.isEmpty && mapHas targetMatchToId v then
      some ((mapGet targetMatchToId v).getD "")
    else none
  | none => none

theorem buildEntityMapping_fst (sourceRecords : List SourceRecord)
    (sourceIdToMatchValue targetMatchToId : List (String × String)) :
    (buildEntityMapping sourceRecords sourceIdToMatchValue targetMatchToId).1
      = sourceRecords.foldl (fun m rec =>
          match entGuard sourceIdToMatchValue targetMatchToId rec with
          | some v => mapSet m rec.Id v
          | none => m) [] := by
  unfold buildEntityMapping
  suffices h : ∀ acc : List (String × String) × Nat,
      (sourceRecords.foldl (fun acc rec =>
        match mapGet sourceIdToMatchValue rec.Id with
        | some v =>
          if !v.isEmpty && mapHas targetMatchToId v then
            (mapSet acc.1 rec.Id ((mapGet targetMatchToId v).getD ""), acc.2)
          else (acc.1, acc.2 + 1)
        | none => (acc.1, acc.2 + 1)) acc).1
      = sourceRecords.foldl (fun m rec =>
          match entGuard sourceIdToMatchValue targetMatchToId rec with
          | some v => mapSet m rec.Id v
          | none => m) acc.1 by
    exact h ([], 0)
  induction sourceRecords with
  | nil => intro acc; rfl
  | cons rec rest ih =>
    intro acc
    rw [List.foldl_cons, List.foldl_cons, ih]
    congr 1
    unfold entGuard
    cases hg : mapGet sourceIdToMatchValue rec.Id with
    | none => rfl
    | some v =>
      by_cases hv : (!v.isEmpty && mapHas targetMatchToId v) = true
      · simp [hv]
      · simp [hv]

/-- C10: when several target records share a match-field value, the
value ↦ targetId table binds that value to the record the query returned
last, and every source record carrying that value is mapped to that last
record's id.  (Hypothesis: source record ids are pairwise distinct — they
are primary keys.) -/
theorem spec_C10_duplicate_match_last_wins (targetRecords : List TargetRecord)
    (sourceRecords : List SourceRecord) (v : String) (r : SourceRecord)
    (t : TargetRecord)
    (hnd : (sourceRecords.map SourceRecord.Id).Nodup)
    (hr : r ∈ sourceRecords) (hrv : r.matchVal = some v) (hv : v ≠ "")
    (hlast : (targetRecords.filter (fun tr => tr.matchVal = v)).getLast? = some t) :
    mapGet (buildTargetMatchToId targetRecords) v = some t.Id
    ∧ mapGet (buildEntityMapping sourceRecords
        (buildSourceIdToMatchValue sourceRecords)
        (buildTargetMatchToId targetRecords)).1 r.Id = some t.Id := by
  have htmi : mapGet (buildTargetMatchToId targetRecords) v = some t.Id := by
    unfold buildTargetMatchToId
    rw [foldl_mapSet_lookup TargetRecord.matchVal TargetRecord.Id targetRecords v []]
    rw [hlast]
    rfl
  refine ⟨htmi, ?_⟩
  have hvI : v.isEmpty = false := by
    cases he : v.isEmpty
    · rfl
    · exact absurd ((String.isEmpty_iff _).mp he) hv
  have hsidv : mapGet (buildSourceIdToMatchValue sourceRecords) r.Id = some v := by
    rw [buildSourceIdToMatchValue_eq]
    rw [foldl_guarded_lookup SourceRecord.Id srcGuard sourceRecords r hr hnd []]
    unfold srcGuard
    rw [hrv]
    simp [hvI, Option.or]
  rw [buildEntityMapping_fst]
  rw [foldl_guarded_lookup SourceRecord.Id
    (entGuard (buildSourceIdToMatchValue sourceRecords) (buildTargetMatchToId targetRecords))
    sourceRecords r hr hnd []]
  unfold entGuard
  rw [hsidv]
  simp [hvI, mapHas_of_mapGet_some _ _ _ htmi, htmi, Option.or]

/-- Witness for C10: two target records `T1`, `T2` share match value `M`;
the table binds `M ↦ T2` (the last row) and source record `S1` (carrying
`M`) maps to `T2`. -/
theorem spec_C10_duplicate_match_last_wins_witness :
    ([{ Id := "S1", matchVal := some "M" }].map SourceRecord.Id).Nodup
    ∧ (([{ Id := "T1", matchVal := "M" }, { Id := "T2", matchVal := "M" }].filter
        (fun tr : TargetRecord => tr.matchVal = "M")).getLast?
      = some { Id := "T2", matchVal := "M" })
    ∧ mapGet (buildTargetMatchToId
        [{ Id := "T1", matchVal := "M" }, { Id := "T2", matchVal := "M" }]) "M"
      = some "T2"
    ∧ mapGet (buildEntityMapping [{ Id := "S1", matchVal := some "M" }]
        (buildSourceIdToMatchValue [{ Id := "S1", matchVal := some "M" }])
        (buildTargetMatchToId
          [{ Id := "T1", matchVal := "M" }, { Id := "T2", matchVal := "M" }])).1 "S1"
      = some "T2" := by
  have thm := spec_C10_duplicate_match_last_wins
    [{ Id := "T1", matchVal := "M" }, { Id := "T2", matchVal := "M" }]
    [{ Id := "S1", matchVal := some "M" }] "M"
    { Id := "S1", matchVal := some "M" } { Id := "T2", matchVal := "M" }
    (by decide) (by decide) rfl (by decide) (by decide)
  exact ⟨by decide, by decide, thm.1, thm.2⟩

/-! ## Checkpoint state store (state.ts)

The state directory lives under the OS temp dir; `fs.writeJson` /
`fs.readJson` are mutually inverse on well-formed states, so file contents
are modelled as the parsed `MigrationState` values themselves.  The
filesystem is a path ↦ content map; `fs.rename` removes the source entry
and binds the destination to its content. -/

/-- `MigrationStateConfig` from state.ts lines 42-49. -/
structure MigrationStateConfig where
  objectApiName : String
  sourceMatchField : String
  targetMatchField : String
  whereClause : Option String
  sourceInstanceUrl : String
  targetInstanceUrl : String
deriving Repr, DecidableEq

/-- `status` of a persisted state (state.ts line 58). -/
inductive MigrationStatus where
  | in_progress
  | paused
  | completed
deriving Repr, DecidableEq

/-- `stats` of a persisted state (state.ts lines 61-67). -/
structure StateStats where
  filesFound : Nat
  filesUploaded : Nat
  filesFailed : Nat
  filesSkipped : Nat
  linksCreated : Nat
deriving Repr, DecidableEq

/-- `MigrationState` from state.ts lines 51-68. -/
structure MigrationState where
  version : Nat
  stateId : String
  createdAt : String
  updatedAt : String
  config : MigrationStateConfig
  tempDir : String
  status : MigrationStatus
  completed : List (String × String)
  stats : StateStats
deriving Repr, DecidableEq

/-- `STATE_DIR` (state.ts line 38), with `os.tmpdir()` modelled as `/tmp`. -/
def STATE_DIR : String := "/tmp/sf-filebuddy-migrate/.state"

/-- `path.join(STATE_DIR, stateId + ".json")`. -/
def stateFilePath (stateId : String) : String :=
  STATE_DIR ++ "/" ++ stateId ++ ".json"

/-- The sibling temporary path `filePath + ".tmp"` (state.ts line 117). -/
def tmpFilePath (stateId : String) : String :=
  stateFilePath stateId ++ ".tmp"

/-- The filesystem: a path ↦ parsed-state map. -/
structure FileSys where
  files : List (String × MigrationState)
deriving Repr, DecidableEq

def fsWrite (fs : FileSys) (p : String) (st : MigrationState) : FileSys :=
  ⟨mapSet fs.files p st⟩

def fsExists (fs : FileSys) (p : String) : Bool :=
  mapHas fs.files p

def fsRead (fs : FileSys) (p : String) : Option MigrationState :=
  mapGet fs.files p

def fsRemove (fs : FileSys) (p : String) : FileSys :=
  ⟨fs.files.filter (fun q => !decide (q.1 = p))⟩

/-- `fs.rename src dst`: the destination takes the source's content and the
source entry disappears (a no-op when the source is absent, where the real
call would reject). -/
def fsRename (fs : FileSys) (src dst : String) : FileSys :=
  match mapGet fs.files src with
  | some content => fsWrite (fsRemove fs src) dst content
  | none => fs

/-- The first half of `saveState` (state.ts lines 119-121): stamp
`updatedAt` and write the serialized state to the sibling `.tmp` path.  A
process kill happens exactly after this step. -/
def saveStateStep1 (fs : FileSys) (stateId : String) (state : MigrationState)
    (now : String) : FileSys :=
  fsWrite fs (tmpFilePath stateId) { state with updatedAt := now }

/-- The whole of `saveState` (state.ts lines 114-123): temporary write, then
rename over the durable file. -/
def saveState (fs : FileSys) (stateId : String) (state : MigrationState)
    (now : String) : FileSys :=
  fsRename (saveStateStep1 fs stateId state now)
    (tmpFilePath stateId) (stateFilePath stateId)

/-- `loadState` (state.ts lines 102-108): read the durable file when it
exists. -/
def loadState (fs : FileSys) (stateId : String) : Option MigrationState :=
  if fsExists fs (stateFilePath stateId) then fsRead fs (stateFilePath stateId)
  else none

theorem stateFilePath_ne_tmp (stateId : String) :
    stateFilePath stateId ≠ tmpFilePath stateId := by
  intro h
  have hlen := congrArg String.length h
  unfold tmpFilePath at hlen
  rw [String.length_append] at hlen
  have h4 : (".tmp" : String).length = 4 := rfl
  omega

/-! ## Claim C2 -/

/-- C2: `saveState` writes to a sibling temporary path and then renames it
over the durable file; a process kill after the temporary write but before
the rename leaves the previously saved durable file intact and readable
(`loadState` still returns the previous state), while the completed save
makes `loadState` return the new state (with its stamped `updatedAt`). -/
theorem spec_C2_atomic_save (fs : FileSys) (stateId : String)
    (state prev : MigrationState) (now : String)
    (hprev : loadState fs stateId = some prev) :
    loadState (saveStateStep1 fs stateId state now) stateId = some prev
    ∧ loadState (saveState fs stateId state now) stateId
        = some { state with updatedAt := now } := by
  have hne : stateFilePath stateId ≠ tmpFilePath stateId := stateFilePath_ne_tmp stateId
  constructor
  · unfold loadState at hprev ⊢
    unfold saveStateStep1 fsWrite fsExists fsRead
    simp only [mapHas_mapSet, mapGet_mapSet]
    rw [if_neg hne]
    have hne' : (decide (stateFilePath stateId = tmpFilePath stateId)) = false := by
      simpa using hne
    rw [hne']
    simpa using hprev
  · unfold saveState
    unfold fsRename
    have htmp : mapGet (saveStateStep1 fs stateId state now).files
        (tmpFilePath stateId) = some { state with updatedAt := now } := by
      unfold saveStateStep1 fsWrite
      rw [mapGet_mapSet, if_pos rfl]
    rw [htmp]
    unfold loadState fsWrite fsExists fsRead
    simp [mapHas_mapSet, mapGet_mapSet]

/-- Witnesses for C2: a filesystem holding one durable state survives the
simulated crash and is replaced by the completed save. -/
def statePrev : MigrationState :=
  { version := 1, stateId := "Account_Id_ab12cd34", createdAt := "t0"
    updatedAt := "t0"
    config :=
      { objectApiName := "Account", sourceMatchField := "Id"
        targetMatchField := "Id", whereClause := none
        sourceInstanceUrl := "https://s.example.com"
        targetInstanceUrl := "https://t.example.com" }
    tempDir := "/tmp/sf-filebuddy-migrate/Account_Id_ab12cd34"
    status := .in_progress, completed := [("D1s", "D1t")]
    stats := { filesFound := 2, filesUploaded := 1, filesFailed := 0
               filesSkipped := 0, linksCreated := 0 } }

def stateNext : MigrationState :=
  { statePrev with completed := [("D1s", "D1t"), ("D2s", "D2t")]
                   stats := { statePrev.stats with filesUploaded := 2 } }

def fs0 : FileSys :=
  ⟨[(stateFilePath "Account_Id_ab12cd34", statePrev)]⟩

theorem spec_C2_atomic_save_witness :
    loadState fs0 "Account_Id_ab12cd34" = some statePrev
    ∧ loadState (saveStateStep1 fs0 "Account_Id_ab12cd34" stateNext "t1")
        "Account_Id_ab12cd34" = some statePrev
    ∧ loadState (saveState fs0 "Account_Id_ab12cd34" stateNext "t1")
        "Account_Id_ab12cd34" = some { stateNext with updatedAt := "t1" } :=
  ⟨by decide,
    (spec_C2_atomic_save fs0 "Account_Id_ab12cd34" stateNext statePrev "t1"
      (by decide)).1,
    (spec_C2_atomic_save fs0 "Account_Id_ab12cd34" stateNext statePrev "t1"
      (by decide)).2⟩

/-! ## State identity (state.ts lines 85-97)

`generateStateId` hashes the `'|'`-join of the six config fields with
SHA-256 (`crypto.createHash('sha256')` over the UTF-8 bytes of the key) and
keeps the first 8 hex digits.  SHA-256 is implemented below over `Nat`
with explicit `% 2^32` wraparound. -/

/-- 2^32. -/
def M32 : Nat := 4294967296

def rotr32 (n x : Nat) : Nat := ((x >>> n) ||| (x <<< (32 - n))) % M32

def shaCh (e f g : Nat) : Nat := (e &&& f) ^^^ ((e ^^^ 4294967295) &&& g)

def shaMaj (a b c : Nat) : Nat := (a &&& b) ^^^ (a &&& c) ^^^ (b &&& c)

def bigSigma0 (x : Nat) : Nat := rotr32 2 x ^^^ rotr32 13 x ^^^ rotr32 22 x

def bigSigma1 (x : Nat) : Nat := rotr32 6 x ^^^ rotr32 11 x ^^^ rotr32 25 x

def smallSigma0 (x : Nat) : Nat := rotr32 7 x ^^^ rotr32 18 x ^^^ (x >>> 3)

def smallSigma1 (x : Nat) : Nat := rotr32 17 x ^^^ rotr32 19 x ^^^ (x >>> 10)

/-- The 64 SHA-256 round constants (decimal). -/
def shaK : List Nat :=
  [1116352408, 1899447441, 3049323471, 3921009573, 961987163, 1508970993,
   2453635748, 2870763221, 3624381080, 310598401, 607225278, 1426881987,
   1925078388, 2162078206, 2614888103, 3248222580, 3835390401, 4022224774,
   264347078, 604807628, 770255983, 1249150122, 1555081692, 1996064986,
   2554220882, 2821834349, 2952996808, 3210313671, 3336571891, 3584528711,
   113926993, 338241895, 666307205, 773529912, 1294757372, 1396182291,
   1695183700, 1986661051, 2177026350, 2456956037, 2730485921, 2820302411,
   3259730800, 3345764771, 3516065817, 3600352804, 4094571909, 275423344,
   430227734, 506948616, 659060556, 883997877, 958139571, 1322822218,
   1537002063, 1747873779, 1955562222, 2024104815, 2227730452, 2361852424,
   2428436474, 2756734187, 3204031479, 3329325298]

/-- The initial SHA-256 hash value (decimal). -/
def shaH0 : List Nat :=
  [1779033703, 3144134277, 1013904242, 2773480762,
   1359893119, 2600822924, 528734635, 1541459225]

/-- UTF-8 encoding of one character, as byte values. -/
def utf8EncodeChar (c : Char) : List Nat :=
  let n := c.toNat
  if n < 0x80 then [n]
  else if n < 0x800 then
    [0xC0 ||| (n >>> 6), 0x80 ||| (n &&& 0x3F)]
  else if n < 0x10000 then
    [0xE0 ||| (n >>> 12), 0x80 ||| ((n >>> 6) &&& 0x3F), 0x80 ||| (n &&& 0x3F)]
  else
    [0xF0 ||| (n >>> 18), 0x80 ||| ((n >>> 12) &&& 0x3F),
     0x80 ||| ((n >>> 6) &&& 0x3F), 0x80 ||| (n &&& 0x3F)]

def utf8Bytes (s : String) : List Nat :=
  (s.data.map utf8EncodeChar).flatten

/-- Big-endian byte representation of `n` in `k` bytes. -/
def beBytes (k n : Nat) : List Nat :=
  (List.range k).map (fun i => (n >>> (8 * (k - 1 - i))) &&& 255)

/-- SHA-256 message padding: `0x80`, zeros to 56 mod 64, 8-byte bit length. -/
def sha256Pad (msg : List Nat) : List Nat :=
  let z := (120 - ((msg.length + 1) % 64)) % 64
  msg ++ [0x80] ++ List.replicate z 0 ++ beBytes 8 (8 * msg.length)

/-- Group bytes into big-endian 32-bit words. -/
def toWords : List Nat → List Nat
  | b0 :: b1 :: b2 :: b3 :: rest =>
    ((b0 <<< 24) ||| (b1 <<< 16) ||| (b2 <<< 8) ||| b3) :: toWords rest
  | _ => []

/-- Extend 16 message-schedule words to 64. -/
def extendW (w : List Nat) : List Nat :=
  (List.range 48).foldl (fun w _ =>
    w ++ [(smallSigma1 (w.getD (w.length - 2) 0) + w.getD (w.length - 7) 0
      + smallSigma0 (w.getD (w.length - 15) 0) + w.getD (w.length - 16) 0) % M32]) w

/-- One SHA-256 compression over a 64-byte block. -/
def sha256Compress (h : List Nat) (block : List Nat) : List Nat :=
  let w := extendW (toWords block)
  let st := (List.range 64).foldl (fun st i =>
    let a := st.getD 0 0
    let b := st.getD 1 0
    let c := st.getD 2 0
    let d := st.getD 3 0
    let e := st.getD 4 0
    let f := st.getD 5 0
    let g := st.getD 6 0
    let hh := st.getD 7 0
    let t1 := (hh + bigSigma1 e + shaCh e f g + shaK.getD i 0 + w.getD i 0) % M32
    let t2 := (bigSigma0 a + shaMaj a b c) % M32
    [(t1 + t2) % M32, a, b, c, (d + t1) % M32, e, f, g]) h
  (h.zip st).map (fun p => (p.1 + p.2) % M32)

/-- SHA-256 of a byte list, as eight 32-bit words. -/
def sha256Words (msg : List Nat) : List Nat :=
  (chunksOf 64 (sha256Pad msg)).foldl sha256Compress shaH0

def hexDigit (n : Nat) : Char :=
  if n < 10 then Char.ofNat (48 + n) else Char.ofNat (87 + n)

def wordHex (w : Nat) : List Char :=
  (List.range 8).map (fun i => hexDigit ((w >>> (4 * (7 - i))) &&& 15))

/-- `crypto.createHash('sha256').update(s).digest('hex')`. -/
def sha256Hex (s : String) : String :=
  ⟨((sha256Words (utf8Bytes s)).map wordHex).flatten⟩

/-- The hex digest truncated to its first 8 characters (`.slice(0, 8)`). -/
def sha256Hex8 (s : String) : String :=
  ⟨(sha256Hex s).data.take 8⟩

/-- The `'|'`-joined key of the six config fields (state.ts lines 86-93). -/
def stateKey (config : MigrationStateConfig) : String :=
  String.intercalate "|"
    [config.objectApiName, config.sourceMatchField, config.targetMatchField,
     config.whereClause.getD "", config.sourceInstanceUrl,
     config.targetInstanceUrl]

/-- `generateStateId` (state.ts lines 85-97). -/
def generateStateId (config : MigrationStateConfig) : String :=
  config.objectApiName ++ "_" ++ config.sourceMatchField ++ "_"
    ++ sha256Hex8 (stateKey config)

/-! ## Claim C3 -/

/-- C3 (amended): `generateStateId` is a deterministic function of the six
key fields — two configs identical in object type, source match field,
target match field, filter-or-empty, source instance URL and target
instance URL produce the same stateId.  (Distinctness for differing configs
does **not** hold in general: the `'|'`-join of the fields is not
injective, so two configs differing in a field can share the key string —
see the counterexample — and the hash is truncated to 8 hex digits in any
case.) -/
theorem spec_C3_state_identity (c1 c2 : MigrationStateConfig)
    (h1 : c1.objectApiName = c2.objectApiName)
    (h2 : c1.sourceMatchField = c2.sourceMatchField)
    (h3 : c1.targetMatchField = c2.targetMatchField)
    (h4 : c1.whereClause.getD "" = c2.whereClause.getD "")
    (h5 : c1.sourceInstanceUrl = c2.sourceInstanceUrl)
    (h6 : c1.targetInstanceUrl = c2.targetInstanceUrl) :
    generateStateId c1 = generateStateId c2 := by
  unfold generateStateId stateKey
  rw [h1, h2, h3, h4, h5, h6]

/-- Witness for C3: two configs identical in all six key fields (one with
an absent filter, one with an empty-string filter — the key uses
`whereClause ?? ''`) share their stateId. -/
theorem spec_C3_state_identity_witness :
    ({ objectApiName := "Account", sourceMatchField := "Id"
       targetMatchField := "Id", whereClause := none
       sourceInstanceUrl := "https://s.example.com"
       targetInstanceUrl := "https://t.example.com" } : MigrationStateConfig).whereClause.getD ""
      = ({ objectApiName := "Account", sourceMatchField := "Id"
           targetMatchField := "Id", whereClause := some ""
           sourceInstanceUrl := "https://s.example.com"
           targetInstanceUrl := "https://t.example.com" } : MigrationStateConfig).whereClause.getD ""
    ∧ generateStateId
        { objectApiName := "Account", sourceMatchField := "Id"
          targetMatchField := "Id", whereClause := none
          sourceInstanceUrl := "https://s.example.com"
          targetInstanceUrl := "https://t.example.com" }
      = generateStateId
        { objectApiName := "Account", sourceMatchField := "Id"
          targetMatchField := "Id", whereClause := some ""
          sourceInstanceUrl := "https://s.example.com"
          targetInstanceUrl := "https://t.example.com" } :=
  ⟨rfl, spec_C3_state_identity _ _ rfl rfl rfl rfl rfl rfl⟩

/-- A config whose target match field contains `'|'`. -/
def cfgX : MigrationStateConfig :=
  { objectApiName := "Account", sourceMatchField := "Id"
    targetMatchField := "a|b", whereClause := some "c"
    sourceInstanceUrl := "S", targetInstanceUrl := "T" }

/-- A different config (different target match field and filter) whose
`'|'`-joined key coincides with `cfgX`'s. -/
def cfgY : MigrationStateConfig :=
  { objectApiName := "Account", sourceMatchField := "Id"
    targetMatchField := "a", whereClause := some "b|c"
    sourceInstanceUrl := "S", targetInstanceUrl := "T" }

/-- C3 counterexample: `cfgX` and `cfgY` differ in the target match field
(and in the filter), yet their `'|'`-joined keys — and hence their
stateIds — coincide, refuting "two configs that differ in any field
produce distinct stateIds". -/
theorem spec_C3_state_identity_counterexample :
    cfgX ≠ cfgY
    ∧ cfgX.targetMatchField ≠ cfgY.targetMatchField
    ∧ stateKey cfgX = stateKey cfgY
    ∧ generateStateId cfgX = generateStateId cfgY := by
  refine ⟨by decide, by decide, by decide, ?_⟩
  unfold generateStateId
  have hk : stateKey cfgX = stateKey cfgY := by decide
  rw [hk]
  rfl
